import Mathlib

/-!
Verification of the cookie-more conversion library.

The library converts HTTP cookie data between four shapes: a Cookie request
header string, an array of Set-Cookie response header strings, a flat
name-to-value record, and an array of structured cookie objects.  The
definitions below are a shallow embedding of the source file
(dist/cookie.js): JavaScript values are modelled by the inductive `JSVal`,
JavaScript objects by insertion-ordered association lists, and functions
that can throw by `Except`.  The two low-level primitives of the underlying
cookie package, `parse` and `serialize`, are not part of the repository
sources and are modelled from the specification, as marked in their doc
comments.
-/

namespace CookieMore

/-- A JavaScript runtime value, as far as the cookie library observes it:
strings, numbers (integers and the NaN sentinel produced by parseInt),
booleans, undefined, null, arrays, plain objects (insertion-ordered field
lists) and Date wrappers as produced by a Date constructor call. -/
inductive JSVal where
  | str (s : String)
  | num (n : Int)
  | nan
  | bool (b : Bool)
  | undef
  | null
  | arr (elems : List JSVal)
  | obj (fields : List (String × JSVal))
  | date (raw : JSVal)
deriving Repr

/-- A JavaScript object: keys in insertion order, assumed unique as in the
runtime. -/
abbrev Obj := List (String × JSVal)

/-- Error kinds observable from the library: the single library-raised
error (new Error with the unknown cookies format message) and runtime type
errors raised by calling string methods or reading properties on values of
the wrong type. -/
inductive JSErr where
  | unknownFormat
  | typeError
deriving Repr, DecidableEq

/-! ## Character and string helpers (JS string semantics) -/

/-- Whitespace characters matched by the backslash-s class of the regexes
in the source, compared by code point: the ECMAScript WhiteSpace and
LineTerminator productions, that is tab, line feed, vertical tab, form
feed, carriage return, space, no-break space, the Ogham space mark, the
en-quad through hair-space range, the line and paragraph separators, the
narrow no-break space, the medium mathematical space, the ideographic
space and the zero-width no-break space. -/
def isWsChar (c : Char) : Bool :=
  c.toNat = 32 || c.toNat = 9 || c.toNat = 10 || c.toNat = 11 || c.toNat = 12 ||
    c.toNat = 13 || c.toNat = 160 || c.toNat = 5760 || c.toNat = 8192 ||
    c.toNat = 8193 || c.toNat = 8194 || c.toNat = 8195 || c.toNat = 8196 ||
    c.toNat = 8197 || c.toNat = 8198 || c.toNat = 8199 || c.toNat = 8200 ||
    c.toNat = 8201 || c.toNat = 8202 || c.toNat = 8232 || c.toNat = 8233 ||
    c.toNat = 8239 || c.toNat = 8287 || c.toNat = 12288 || c.toNat = 65279

/-- Decimal digit characters, compared by code point. -/
def isDigitChar (c : Char) : Bool :=
  48 ≤ c.toNat && c.toNat ≤ 57

/-- Prepend a character to the first chunk of a split result. -/
def consHead (c : Char) : List (List Char) → List (List Char)
  | [] => [[c]]
  | s :: ss => (c :: s) :: ss

/-- Split on the regex alternation of semicolon-space or bare semicolon,
as the delimiter constant in the source does: at each semicolon one
directly following space is consumed with it. -/
def splitSemiList : List Char → List (List Char)
  | [] => [[]]
  | c :: rest =>
    if c = ';' then
      [] ::
        (match rest with
         | c2 :: rest2 => if c2 = ' ' then splitSemiList rest2 else splitSemiList (c2 :: rest2)
         | [] => [[]])
    else consHead c (splitSemiList rest)

/-- Split on a semicolon followed by any run of whitespace, as the regex
in setCookieHeadersToCookieObjects does.  The boolean is true while the
scanner is inside the whitespace run following a semicolon. -/
def splitSW (skipping : Bool) : List Char → List (List Char)
  | [] => [[]]
  | c :: rest =>
    if skipping && isWsChar c then splitSW true rest
    else if c = ';' then [] :: splitSW true rest
    else consHead c (splitSW false rest)

/-- Split on a semicolon plus following whitespace run. -/
def splitSemiWs (l : List Char) : List (List Char) :=
  splitSW false l

/-- Split on every occurrence of a character, as the JS string split
method with a one-character separator. -/
def splitOnChar (sep : Char) : List Char → List (List Char)
  | [] => [[]]
  | c :: rest =>
    if c = sep then [] :: splitOnChar sep rest
    else consHead c (splitOnChar sep rest)

/-- Join a list of strings with a separator, as the JS array join method. -/
def joinSep (sep : String) : List String → String
  | [] => ""
  | [x] => x
  | x :: xs => x ++ sep ++ joinSep sep xs

/-- ASCII lower-casing of one character, the fragment of the JS
toLowerCase method exercised by attribute keys. -/
def charLower (c : Char) : Char :=
  if 'A' ≤ c && c ≤ 'Z' then Char.ofNat (c.toNat + 32) else c

/-- ASCII lower-casing of a string. -/
def strLower (s : String) : String :=
  String.mk (s.data.map charLower)

/-- Whether the first list occurs at the start of the second. -/
def startsList : List Char → List Char → Bool
  | [], _ => true
  | _ :: _, [] => false
  | a :: as, b :: bs => a = b && startsList as bs

/-- Whether the first list occurs somewhere inside the second. -/
def hasInfixList (needle : List Char) : List Char → Bool
  | [] => startsList needle []
  | b :: bs => startsList needle (b :: bs) || hasInfixList needle bs

/-- Whether the needle string occurs inside the haystack string, as the
JS string includes method. -/
def strContains (hay needle : String) : Bool :=
  hasInfixList needle.data hay.data

/-! ## Decimal numbers: printing and parseInt -/

/-- Decimal digit character of a value below ten. -/
def digitChar : Nat → Char
  | 0 => '0' | 1 => '1' | 2 => '2' | 3 => '3' | 4 => '4'
  | 5 => '5' | 6 => '6' | 7 => '7' | 8 => '8' | 9 => '9'
  | _ => '?'

/-- Decimal digits of a natural number, least significant first; the fuel
argument keeps the recursion structural so that it evaluates in the
kernel. -/
def natDigitsRevFuel : Nat → Nat → List Char
  | 0, _ => []
  | fuel + 1, n => if n = 0 then [] else digitChar (n % 10) :: natDigitsRevFuel fuel (n / 10)

/-- Decimal representation of a natural number. -/
def natRepr (n : Nat) : String :=
  if n = 0 then "0" else String.mk (natDigitsRevFuel n n).reverse

/-- Decimal representation of an integer, as the JS number toString. -/
def intRepr : Int → String
  | .ofNat n => natRepr n
  | .negSucc n => "-" ++ natRepr (n + 1)

/-- Numeric value of a list of decimal digit characters, most significant
first. -/
def digitsVal (l : List Char) : Nat :=
  l.foldl (fun a c => 10 * a + (c.toNat - 48)) 0

/-- Integer prefix of a character list after an optional sign: take the
leading decimal digits and fail with NaN when there are none. -/
def intOfDigits (neg : Bool) (cs : List Char) : JSVal :=
  let ds := cs.takeWhile isDigitChar
  if ds.isEmpty then .nan
  else .num ((if neg then -1 else 1) * (digitsVal ds : Int))

/-- The JS parseInt applied to a string in base ten: skip leading
whitespace, accept an optional sign, read the leading run of decimal
digits, and yield NaN when there is none.  The hexadecimal prefix case of
parseInt is never reached by the library and is not modelled. -/
def jsParseInt (s : String) : JSVal :=
  match s.data.dropWhile (fun c => isWsChar c) with
  | [] => .nan
  | c :: r =>
    if c = '-' then intOfDigits true r
    else if c = '+' then intOfDigits false r
    else intOfDigits false (c :: r)

/-! ## Dates -/

/-- Two-digit zero-padded decimal. -/
def pad2 (n : Nat) : String :=
  if n < 10 then "0" ++ natRepr n else natRepr n

/-- Weekday names as used by the UTC date format, starting at Sunday. -/
def dayNames : List String :=
  ["Sun", "Mon", "Tue", "Wed", "Thu", "Fri", "Sat"]

/-- Month names as used by the UTC date format, starting at January. -/
def monthNames : List String :=
  ["Jan", "Feb", "Mar", "Apr", "May", "Jun", "Jul", "Aug", "Sep", "Oct", "Nov", "Dec"]

/-- Civil date (year, month, day) from a count of days since the epoch,
by the standard Gregorian era computation. -/
def civilFromDays (z0 : Int) : Int × Nat × Nat :=
  let z := z0 + 719468
  let era : Int := z.fdiv 146097
  let doe : Nat := (z - era * 146097).toNat
  let yoe : Nat := (doe - doe / 1460 + doe / 36524 - doe / 146096) / 365
  let doy : Nat := doe - (365 * yoe + yoe / 4 - yoe / 100)
  let mp : Nat := (5 * doy + 2) / 153
  let d : Nat := doy - (153 * mp + 2) / 5 + 1
  let m : Nat := if mp < 10 then mp + 3 else mp - 9
  let y : Int := (yoe : Int) + era * 400 + (if m ≤ 2 then 1 else 0)
  (y, m, d)

/-- UTC date string for an epoch-millisecond timestamp, in the format of
the JS Date toUTCString method. -/
def epochToUTC (ms : Int) : String :=
  let days : Int := ms.fdiv 86400000
  let msOfDay : Nat := (ms - days * 86400000).toNat
  let sec := msOfDay / 1000
  let (y, m, d) := civilFromDays days
  let wd : Nat := ((days + 4).fmod 7).toNat
  (dayNames.getD wd "") ++ ", " ++ pad2 d ++ " " ++ (monthNames.getD (m - 1) "") ++ " " ++
    (if y < 0 then "-" ++ natRepr (-y).toNat else natRepr y.toNat) ++ " " ++
    pad2 (sec / 3600) ++ ":" ++ pad2 (sec / 60 % 60) ++ ":" ++ pad2 (sec % 60) ++ " GMT"

/-- Modelled from the spec: the serialized form of an expires value.  The
spec states that expires may be a string or an epoch number in memory but
is always serialized as a formatted date string.  An epoch number is
formatted by the UTC formatter; a date string is kept as is, modelling
the JS round trip of constructing a Date from an already formatted date
string and printing it back. -/
def fmtDateRaw : JSVal → String
  | .str s => s
  | .num n => epochToUTC n
  | _ => "Invalid Date"

/-! ## Value coercions -/

/-- JS string coercion of a primitive value.  Array elements that are
themselves arrays or objects are not exercised by the library and are
approximated by their shallow coercions. -/
def jsPrimToString : JSVal → String
  | .str s => s
  | .num n => intRepr n
  | .nan => "NaN"
  | .bool b => if b then "true" else "false"
  | .undef => "undefined"
  | .null => "null"
  | .date r => fmtDateRaw r
  | .arr _ => ""
  | .obj _ => "[object Object]"

/-- JS string coercion of a value. -/
def jsToString : JSVal → String
  | .arr xs => joinSep "," (xs.map jsPrimToString)
  | .obj _ => "[object Object]"
  | v => jsPrimToString v

/-- JS truthiness of a value. -/
def jsTruthy : JSVal → Bool
  | .undef => false
  | .null => false
  | .bool b => b
  | .num n => n ≠ 0
  | .nan => false
  | .str s => s ≠ ""
  | .arr _ => true
  | .obj _ => true
  | .date _ => true

/-- Whether typeof yields the string object: plain objects, arrays, null
and Date values. -/
def isTypeofObject : JSVal → Bool
  | .obj _ => true
  | .arr _ => true
  | .null => true
  | .date _ => true
  | _ => false

/-- Whether the value is an array, as Array.isArray. -/
def isArrayVal : JSVal → Bool
  | .arr _ => true
  | _ => false

/-- Whether the value is a string. -/
def isStringVal : JSVal → Bool
  | .str _ => true
  | _ => false

/-! ## Object operations -/

/-- Value of a field of an object representation, by the first matching
key. -/
def objLookup (o : Obj) (k : String) : Option JSVal :=
  (o.find? (fun p => p.1 == k)).map (fun p => p.2)

/-- Whether the object has a field with the given key. -/
def hasKey (o : Obj) (k : String) : Bool :=
  o.any (fun p => p.1 == k)

/-- JS property assignment on an object literal under construction: an
existing key keeps its position and receives the new value, a fresh key
is appended. -/
def objSet (o : Obj) (k : String) (v : JSVal) : Obj :=
  if hasKey o k then o.map (fun p => if p.1 = k then (k, v) else p)
  else o ++ [(k, v)]

/-- JS object spread of the second operand over the first: fields of the
right operand are assigned one by one, so they win per key and fresh keys
are appended in their order. -/
def recordMerge (a b : Obj) : Obj :=
  b.foldl (fun acc p => objSet acc p.1 p.2) a

/-- Remove every field with the given key, as the rest pattern of a
destructuring assignment does for the destructured names. -/
def objErase (o : Obj) (k : String) : Obj :=
  o.filter (fun p => p.1 ≠ k)

/-- JS property read.  Reading from null or undefined raises a type
error; reading a missing field or a field of a primitive yields
undefined. -/
def getProp (v : JSVal) (k : String) : Except JSErr JSVal :=
  match v with
  | .null => .error .typeError
  | .undef => .error .typeError
  | .obj fields => .ok ((objLookup fields k).getD .undef)
  | _ => .ok (.undef)

/-- Own enumerable fields copied by a JS object spread.  Spreading a
string or an array yields index-keyed fields; spreading other primitives
and Date values yields nothing. -/
def spreadFields : JSVal → Obj
  | .obj f => f
  | .arr xs => (xs.enum.map (fun p => (natRepr p.1, p.2)))
  | .str s => (s.data.enum.map (fun p => (natRepr p.1, JSVal.str (String.mk [p.2]))))
  | _ => []

/-- Left-biased choice of options, the shape of every lookup through a
concatenation or merge. -/
def optOr (a b : Option JSVal) : Option JSVal :=
  match a with
  | some v => some v
  | none => b

/-- Keys of an object. -/
def objKeys (o : Obj) : List String := o.map (fun p => p.1)

/-! ## Low-level primitives, modelled from the spec

The repository re-exports the parse and serialize primitives of the
underlying cookie package; their source is not part of the repository, so
they are modelled from section 4.1 of the specification. -/

/-- One header segment as a name and value: the segment is split on the
first equals sign; a segment without one yields an undefined value, which
downstream steps must tolerate. -/
def pairOfSegment (seg : List Char) : String × JSVal :=
  let a := seg.takeWhile (fun c => c ≠ '=')
  match seg.dropWhile (fun c => c ≠ '=') with
  | [] => (String.mk a, .undef)
  | _ :: rest => (String.mk a, .str (String.mk rest))

/-- Modelled from the spec: the parse primitive of the underlying cookie
package, absent from the repository sources.  It splits the header on the
semicolon-space or semicolon delimiter and each segment on its first
equals sign, trimming nothing; an absent or empty header yields an empty
mapping, and a segment without an equals sign yields an undefined value.
The spec does not fix a policy for duplicate names inside one header; the
first occurrence is kept, matching the underlying package. -/
def parse (s : String) : Obj :=
  if s = "" then []
  else
    (splitSemiList s.data).foldl
      (fun acc seg =>
        let p := pairOfSegment seg
        if hasKey acc p.1 then acc else acc ++ [p])
      []

/-- Attribute keys the serializer recognizes, in the declared-field order
of the CookieObject type. -/
def knownOptionKeys : List String :=
  ["domain", "path", "expires", "maxAge", "httpOnly", "secure", "sameSite"]

/-- Serialized form of one unrecognized attribute: re-emitted under its
lower-cased key, as a bare flag when its value is the boolean true. -/
def extraAttr (p : String × JSVal) : String :=
  "; " ++ strLower p.1 ++ (match p.2 with | .bool true => "" | v => "=" ++ jsToString v)

/-- Modelled from the spec: the serialize primitive of the underlying
cookie package, absent from the repository sources.  It emits the
name-value pair followed by the recognized attributes in declared-field
order (domain, path, expires, maxAge, httpOnly, secure, sameSite):
value-carrying attributes are emitted under their wire names when truthy,
maxAge is emitted under the wire name Max-Age whenever it is neither
undefined nor null, the boolean flags are emitted as bare names when
truthy, and the expires value is emitted as a formatted date string.
Unrecognized attribute keys are re-emitted as lower-cased attribute names
after the recognized ones, in insertion order.  Per section 7 of the spec
no input is rejected. -/
def serialize (name : String) (value : JSVal) (options : Obj) : String :=
  let base := name ++ "=" ++ jsToString value
  let domS := match objLookup options "domain" with
    | some v => if jsTruthy v then "; Domain=" ++ jsToString v else ""
    | none => ""
  let pathS := match objLookup options "path" with
    | some v => if jsTruthy v then "; Path=" ++ jsToString v else ""
    | none => ""
  let expS := match objLookup options "expires" with
    | some v =>
      if jsTruthy v then
        "; Expires=" ++ (match v with | .date r => fmtDateRaw r | w => fmtDateRaw w)
      else ""
    | none => ""
  let magS := match objLookup options "maxAge" with
    | some .undef => ""
    | some .null => ""
    | some v => "; Max-Age=" ++ jsToString v
    | none => ""
  let htoS := match objLookup options "httpOnly" with
    | some v => if jsTruthy v then "; HttpOnly" else ""
    | none => ""
  let secS := match objLookup options "secure" with
    | some v => if jsTruthy v then "; Secure" else ""
    | none => ""
  let samS := match objLookup options "sameSite" with
    | some v => if jsTruthy v then "; SameSite=" ++ jsToString v else ""
    | none => ""
  let extras := (options.filter (fun p => !(knownOptionKeys.contains p.1))).foldl
    (fun acc p => acc ++ extraAttr p) ""
  base ++ domS ++ pathS ++ expS ++ magS ++ htoS ++ secS ++ samS ++ extras

/-! ## The conversion functions of the library

Each definition mirrors one exported function of dist/cookie.js.  A JS
parameter with a default value is modelled by a plain parameter: a call
with the argument missing is embedded as a call at the default. -/

/-- Converts a Cookie header string to a parsed cookies object.  The
Object.assign copy in the source only clones the result. -/
def cookieHeaderToCookieRecord (s : String) : Obj :=
  parse s

/-- The name-value prefix of one Set-Cookie header: the part before the
first attribute delimiter. -/
def headerPrefix (s : String) : String :=
  String.mk ((splitSemiList s.data).headD [])

/-- Converts a Set-Cookie headers array to a parsed cookies object: each
element must be a string (calling split on anything else raises a type
error), only its name-value prefix is parsed, and the per-header records
are merged by a left fold of object spreads. -/
def setCookieHeadersToCookieRecord (headers : List JSVal) : Except JSErr Obj := do
  let recs ← headers.mapM (fun e =>
    match e with
    | .str s => .ok (cookieHeaderToCookieRecord (headerPrefix s))
    | _ => .error .typeError)
  .ok (recs.foldl recordMerge [])

/-- Converts a cookie objects array to a parsed cookies object by
projecting each element to its name and value properties and building an
object from the entries. -/
def cookieObjectsToCookieRecord (cookieObjects : List JSVal) : Except JSErr Obj := do
  let pairs ← cookieObjects.mapM (fun o => do
    let n ← getProp o "name"
    let v ← getProp o "value"
    .ok (n, v))
  .ok (pairs.foldl (fun acc p => objSet acc (jsToString p.1) p.2) [])

/-- Universal converter to a parsed cookies object.  The branch order of
the source is: non-null non-array object, string, array sniffed by its
first element, and otherwise the unknown cookies format error. -/
def anyToCookieRecord (data : JSVal) : Except JSErr Obj :=
  match data with
  | .obj fields => .ok fields
  | .date _ => .ok []
  | .str s => .ok (cookieHeaderToCookieRecord s)
  | .arr elems =>
    match elems.head? with
    | some (.str _) => setCookieHeadersToCookieRecord elems
    | some e =>
      if isTypeofObject e && !(e matches .null) then cookieObjectsToCookieRecord elems
      else .error .unknownFormat
    | none => .error .unknownFormat
  | _ => .error .unknownFormat

/-- Converts a parsed cookies object to a Cookie header string by
serializing every entry and joining with the connector. -/
def cookieRecordToCookieHeader (cookieRecord : Obj) : String :=
  joinSep "; " (cookieRecord.map (fun p => serialize p.1 p.2 []))

/-- Universal converter to a Cookie header string. -/
def anyToCookieHeader (data : JSVal) : Except JSErr String :=
  (anyToCookieRecord data).map cookieRecordToCookieHeader

/-- Converts a parsed cookies object to a cookie objects array, spreading
the caller-supplied attributes onto every generated object. -/
def cookieRecordToCookieObjects (cookieRecord : Obj) (attributes : Obj) : List Obj :=
  cookieRecord.map (fun p => recordMerge [("name", .str p.1), ("value", p.2)] attributes)

/-- The canonicalization table for attribute names. -/
def cookiePropertyMap : List (String × String) :=
  [("httponly", "httpOnly"), ("samesite", "sameSite"), ("max-age", "maxAge")]

/-- One attribute segment applied to the object under construction: the
segment is split on equals signs, the lower-cased key is mapped through
the canonicalization table, a valueless attribute is a boolean flag, and
a max-age value goes through parseInt. -/
def flagStep (res : Obj) (flag : String) : Obj :=
  let fparts := (splitOnChar '=' flag.data).map String.mk
  let key := fparts.headD ""
  let val := fparts.get? 1
  let lowerKey := strLower key
  let propName :=
    ((cookiePropertyMap.find? (fun q => q.1 == lowerKey)).map (fun q => q.2)).getD lowerKey
  if propName = "maxAge" then
    objSet res "maxAge" (jsParseInt (match val with | some v => v | none => "undefined"))
  else
    objSet res propName (match val with | some v => .str v | none => .bool true)

/-- One parsed Set-Cookie header as a cookie object: the first segment
gives name and value (the value is the chunk between the first and second
equals signs, as the destructured full split yields), and each further
segment is folded in as an attribute. -/
def parseSetCookieString (s : String) : Obj :=
  let parts := (splitSemiWs s.data).map String.mk
  let nameValue := parts.headD ""
  let flags := parts.tail
  let nvParts := (splitOnChar '=' nameValue.data).map String.mk
  let name := nvParts.headD ""
  let value : JSVal := match nvParts.get? 1 with
    | some v => .str v
    | none => .undef
  flags.foldl flagStep [("name", .str name), ("value", value)]

/-- Converts a Set-Cookie headers array to a cookie objects array; the
caller-supplied attributes are spread over each parsed object.  Each
element must be a string, otherwise calling split on it raises a type
error. -/
def setCookieHeadersToCookieObjects (array : List JSVal) (attributes : Obj) :
    Except JSErr (List Obj) :=
  array.mapM (fun e =>
    match e with
    | .str s => .ok (recordMerge (parseSetCookieString s) attributes)
    | _ => .error .typeError)

/-- Universal converter to a cookie objects array.  Arrays are handled
directly: an array of plain objects gets the attributes spread onto each
element, an array of strings goes through the Set-Cookie parser, and any
other array yields the empty array.  Everything else goes through
anyToCookieRecord and is expanded with the attributes. -/
def anyToCookieObjects (data : JSVal) (attributes : Obj) : Except JSErr (List Obj) :=
  match data with
  | .arr elems =>
    match elems.head? with
    | some e =>
      if isTypeofObject e && !(e matches .null) && !isArrayVal e then
        .ok (elems.map (fun o => recordMerge (spreadFields o) attributes))
      else if isStringVal e then
        setCookieHeadersToCookieObjects elems attributes
      else
        .ok []
    | none => .ok []
  | _ => (anyToCookieRecord data).map (fun r => cookieRecordToCookieObjects r attributes)

/-- Serialization options built from the non-name non-value fields of one
merged cookie object: fields with undefined values are skipped, an
expires value is wrapped in a Date, and every other field is passed
through under its own key. -/
def optStep (opts : Obj) (p : String × JSVal) : Obj :=
  match p.2 with
  | .undef => opts
  | _ =>
    if p.1 = "expires" then objSet opts "expires" (.date p.2)
    else if p.1 = "maxAge" then objSet opts "maxAge" p.2
    else objSet opts p.1 p.2

/-- Serialization options record of a rest object, folding the step over
its fields in order. -/
def optionsOfRest (rest : Obj) : Obj :=
  rest.foldl optStep []

/-- Converts a cookie objects array to a Set-Cookie headers array: the
caller-supplied attributes are spread over each object, the merged record
is split into name, value and the remaining attributes, the options are
built from the rest, and the serializer produces one wire string per
object. -/
def cookieObjectsToSetCookieHeaders (cookieObjects : List JSVal) (attributes : Obj) :
    List String :=
  cookieObjects.map (fun o =>
    let merged := recordMerge (spreadFields o) attributes
    let name := (objLookup merged "name").getD .undef
    let value := (objLookup merged "value").getD .undef
    let rest := objErase (objErase merged "name") "value"
    serialize (jsToString name) value (optionsOfRest rest))

/-- Universal converter to a Set-Cookie headers array: build the cookie
objects with the attributes, then serialize them (the inner call passes
no attributes). -/
def anyToSetCookieHeaders (data : JSVal) (attributes : Obj) : Except JSErr (List String) :=
  (anyToCookieObjects data attributes).map
    (fun objects => cookieObjectsToSetCookieHeaders (objects.map JSVal.obj) [])

/-! ## Shape predicates and canonical cookie objects used by the claims -/

/-- The input shapes the universal record converter recognizes: a non-null
non-array value of object type, a string, or an array whose first element
is a string or a non-null value of object type. -/
def recognizedShape : JSVal → Bool
  | .obj _ => true
  | .date _ => true
  | .str _ => true
  | .arr elems =>
    match elems.head? with
    | some e => isStringVal e || (isTypeofObject e && !(e matches .null))
    | none => false
  | _ => false

/-- One optional field of a cookie object. -/
def optField (k : String) (v : Option JSVal) : Obj :=
  match v with
  | some w => [(k, w)]
  | none => []

/-- A cookie object whose optional fields all come from the recognized
attribute set, in the declared-field order of the CookieObject type. -/
def mkCookieObject (n v : String) (dom pth exp : Option String) (mag : Option Int)
    (hto sec : Option Bool) (sam : Option String) : Obj :=
  [("name", JSVal.str n), ("value", JSVal.str v)] ++
    optField "domain" (dom.map .str) ++
    optField "path" (pth.map .str) ++
    optField "expires" (exp.map .str) ++
    optField "maxAge" (mag.map .num) ++
    optField "httpOnly" (hto.map .bool) ++
    optField "secure" (sec.map .bool) ++
    optField "sameSite" (sam.map .str)

/-- The HttpOnly flag segment emitted for a boolean field. -/
def htoSeg : Option Bool → List String
  | some true => ["HttpOnly"]
  | _ => []

/-- The Secure flag segment emitted for a boolean field. -/
def secSeg : Option Bool → List String
  | some true => ["Secure"]
  | _ => []

/-- The attribute segments the serializer emits for a cookie object with
the recognized optional fields, in declared-field order. -/
def segPieces (dom pth exp : Option String) (mag : Option Int)
    (hto sec : Option Bool) (sam : Option String) : List String :=
  (dom.map (fun d => "Domain=" ++ d)).toList ++
    (pth.map (fun p => "Path=" ++ p)).toList ++
    (exp.map (fun e => "Expires=" ++ e)).toList ++
    (mag.map (fun m => "Max-Age=" ++ intRepr m)).toList ++
    htoSeg hto ++
    secSeg sec ++
    (sam.map (fun s => "SameSite=" ++ s)).toList

/-- The serialized attribute suffix: every segment preceded by the
connector. -/
def segsConcat : List String → String
  | [] => ""
  | s :: ss => ("; " ++ s) ++ segsConcat ss

/-- The non-name non-value fields of a canonical cookie object, in
declared-field order. -/
def restPieces (dom pth exp : Option String) (mag : Option Int)
    (hto sec : Option Bool) (sam : Option String) : Obj :=
  optField "domain" (dom.map .str) ++
    optField "path" (pth.map .str) ++
    optField "expires" (exp.map .str) ++
    optField "maxAge" (mag.map .num) ++
    optField "httpOnly" (hto.map .bool) ++
    optField "secure" (sec.map .bool) ++
    optField "sameSite" (sam.map .str)

/-- The serialization options record built from the rest fields of a
canonical cookie object: the expires string is wrapped in a Date, every
other field passes through. -/
def optPieces (dom pth exp : Option String) (mag : Option Int)
    (hto sec : Option Bool) (sam : Option String) : Obj :=
  optField "domain" (dom.map .str) ++
    optField "path" (pth.map .str) ++
    optField "expires" ((exp.map .str).map .date) ++
    optField "maxAge" (mag.map .num) ++
    optField "httpOnly" (hto.map .bool) ++
    optField "secure" (sec.map .bool) ++
    optField "sameSite" (sam.map .str)

/-- A string free of the semicolon and equals delimiters. -/
def cleanStr (s : String) : Prop :=
  ';' ∉ s.data ∧ '=' ∉ s.data

instance (s : String) : Decidable (cleanStr s) := by
  unfold cleanStr
  infer_instance

/-- The canonical attribute name of one parsed flag segment. -/
def canonKey (flag : String) : String :=
  let key := ((splitOnChar '=' flag.data).map String.mk).headD ""
  let lowerKey := strLower key
  ((cookiePropertyMap.find? (fun q => q.1 == lowerKey)).map (fun q => q.2)).getD lowerKey

/-- A Set-Cookie header whose record content is preserved by the
object-array route: its name-value prefix is nonempty and holds at most
one equals sign, and no attribute segment canonicalizes to the name or
value keys. -/
def goodHeader (h : String) : Prop :=
  (h.data.takeWhile (fun c => c ≠ ';') ≠ [] ∧
    (h.data.takeWhile (fun c => c ≠ ';')).count '=' ≤ 1) ∧
  ∀ flag ∈ ((splitSemiWs h.data).map String.mk).tail,
    canonKey flag ≠ "name" ∧ canonKey flag ≠ "value"

instance (h : String) : Decidable (goodHeader h) := by
  unfold goodHeader
  infer_instance

/-! ## Lemmas about object operations -/

@[simp] theorem optOr_some (v : JSVal) (b : Option JSVal) : optOr (some v) b = some v := rfl

@[simp] theorem optOr_none (b : Option JSVal) : optOr none b = b := rfl

@[simp] theorem objLookup_nil (k : String) : objLookup [] k = none := rfl

theorem objLookup_cons (p : String × JSVal) (o : Obj) (k : String) :
    objLookup (p :: o) k = if p.1 = k then some p.2 else objLookup o k := by
  by_cases h : p.1 = k <;> simp [objLookup, List.find?_cons, h]

theorem objLookup_append (a b : Obj) (k : String) :
    objLookup (a ++ b) k = optOr (objLookup a k) (objLookup b k) := by
  induction a with
  | nil => simp
  | cons p a ih =>
    by_cases h : p.1 = k <;> simp [objLookup_cons, h, ih]

theorem hasKey_false_lookup (o : Obj) (k : String) (h : hasKey o k = false) :
    objLookup o k = none := by
  induction o with
  | nil => rfl
  | cons p o ih =>
    simp only [hasKey, List.any_cons, Bool.or_eq_false_iff] at h
    have h1 : p.1 ≠ k := by simpa using h.1
    simp [objLookup_cons, h1, ih (by simpa [hasKey] using h.2)]

theorem objLookup_map_update_ne (o : Obj) (k : String) (v : JSVal) (k' : String)
    (h : k' ≠ k) :
    objLookup (o.map (fun p => if p.1 = k then (k, v) else p)) k' = objLookup o k' := by
  induction o with
  | nil => rfl
  | cons p o ih =>
    have hks : ¬k = k' := fun hh => h hh.symm
    by_cases hp : p.1 = k
    · have hpk : ¬p.1 = k' := by rw [hp]; exact hks
      simp [objLookup_cons, hp, hks, hpk, ih]
    · simp [objLookup_cons, hp, ih]

theorem objLookup_map_update_eq (o : Obj) (k : String) (v : JSVal)
    (h : hasKey o k = true) :
    objLookup (o.map (fun p => if p.1 = k then (k, v) else p)) k = some v := by
  induction o with
  | nil => simp [hasKey] at h
  | cons p o ih =>
    by_cases hp : p.1 = k
    · simp [objLookup_cons, hp]
    · simp only [hasKey, List.any_cons, Bool.or_eq_true_iff] at h
      rcases h with h | h
      · exact absurd (by simpa using h) hp
      · simp [objLookup_cons, hp, ih (by simpa [hasKey] using h)]

theorem objLookup_objSet (o : Obj) (k : String) (v : JSVal) (k' : String) :
    objLookup (objSet o k v) k' = if k' = k then some v else objLookup o k' := by
  unfold objSet
  by_cases hk : hasKey o k
  · by_cases hk' : k' = k
    · subst hk'
      simp [hk, objLookup_map_update_eq _ _ v hk]
    · simp [hk, hk', objLookup_map_update_ne o k v k' hk']
  · have hn : objLookup o k = none := hasKey_false_lookup o k (by simpa using hk)
    by_cases hk' : k' = k
    · subst hk'
      simp [hk, objLookup_append, hn, objLookup_cons]
    · have hks : ¬k = k' := fun hh => hk' hh.symm
      simp [hk, objLookup_append, objLookup_cons, hk', hks]
      cases objLookup o k' <;> simp

theorem recordMerge_nil (a : Obj) : recordMerge a [] = a := rfl

theorem recordMerge_cons (a : Obj) (p : String × JSVal) (b : Obj) :
    recordMerge a (p :: b) = recordMerge (objSet a p.1 p.2) b := rfl

@[simp] theorem objKeys_nil : objKeys [] = [] := rfl

@[simp] theorem objKeys_cons (p : String × JSVal) (o : Obj) :
    objKeys (p :: o) = p.1 :: objKeys o := rfl

theorem objLookup_eq_none_of_not_mem_keys (o : Obj) (k : String) (h : k ∉ objKeys o) :
    objLookup o k = none := by
  induction o with
  | nil => rfl
  | cons p o ih =>
    rw [objKeys_cons, List.mem_cons, not_or] at h
    have h1 : ¬p.1 = k := fun hh => h.1 hh.symm
    simp [objLookup_cons, h1, ih h.2]

/-- Lookup in a spread merge: the right operand wins per key when its
keys are unique, otherwise the left operand answers. -/
theorem objLookup_recordMerge (a b : Obj) (k : String) (hb : (objKeys b).Nodup) :
    objLookup (recordMerge a b) k = optOr (objLookup b k) (objLookup a k) := by
  induction b generalizing a with
  | nil => simp [recordMerge_nil]
  | cons p b ih =>
    rw [objKeys_cons, List.nodup_cons] at hb
    rw [recordMerge_cons, ih _ hb.2]
    by_cases hk : p.1 = k
    · subst hk
      have hnone : objLookup b p.1 = none :=
        objLookup_eq_none_of_not_mem_keys b p.1 hb.1
      simp [hnone, objLookup_cons, objLookup_objSet]
    · have hks : ¬k = p.1 := fun hh => hk hh.symm
      rw [objLookup_objSet, if_neg hks, objLookup_cons, if_neg hk]

/-! ## Lemmas about the splitters -/

@[simp] theorem consHead_nil (c : Char) : consHead c [] = [[c]] := rfl

@[simp] theorem consHead_cons (c : Char) (s : List Char) (ss : List (List Char)) :
    consHead c (s :: ss) = (c :: s) :: ss := rfl

theorem splitSemiList_cons (c : Char) (rest : List Char) :
    splitSemiList (c :: rest) =
      if c = ';' then
        [] ::
          (match rest with
           | c2 :: rest2 => if c2 = ' ' then splitSemiList rest2 else splitSemiList (c2 :: rest2)
           | [] => [[]])
      else consHead c (splitSemiList rest) := by
  rw [ splitSemiList.eq_def]

theorem splitSemiList_no_semi (l : List Char) (h : ';' ∉ l) : splitSemiList l = [l] := by
  induction l with
  | nil => rfl
  | cons c rest ih =>
    rw [List.mem_cons, not_or] at h
    have hc : ¬c = ';' := fun hh => h.1 hh.symm
    rw [splitSemiList_cons, if_neg hc, ih h.2, consHead_cons]

theorem splitSemiList_chain (a b : List Char) (h : ';' ∉ a) :
    splitSemiList (a ++ ';' :: ' ' :: b) = a :: splitSemiList b := by
  induction a with
  | nil =>
    rw [List.nil_append, splitSemiList_cons, if_pos rfl]
    show ([] :: if ' ' = ' ' then splitSemiList b else splitSemiList (' ' :: b)) =
      [] :: splitSemiList b
    rw [if_pos rfl]
  | cons c rest ih =>
    rw [List.mem_cons, not_or] at h
    have hc : ¬c = ';' := fun hh => h.1 hh.symm
    rw [List.cons_append, splitSemiList_cons, if_neg hc, ih h.2, consHead_cons]

theorem splitSemiList_headD (l : List Char) :
    (splitSemiList l).headD [] = l.takeWhile (fun c => c ≠ ';') := by
  induction l with
  | nil => rfl
  | cons c rest ih =>
    by_cases hc : c = ';'
    · subst hc
      rw [splitSemiList_cons, if_pos rfl, List.takeWhile_cons]
      simp
    · rw [splitSemiList_cons, if_neg hc, List.takeWhile_cons]
      have hd : decide (c ≠ ';') = true := by simpa using hc
      rw [hd]
      cases hs : splitSemiList rest with
      | nil => simp [hs] at ih; simp [consHead, ih]
      | cons s ss => rw [hs] at ih; simpa [consHead] using congrArg (List.cons c) ih

theorem splitSW_no_semi (l : List Char) (h : ';' ∉ l) : splitSW false l = [l] := by
  induction l with
  | nil => rfl
  | cons c rest ih =>
    rw [List.mem_cons, not_or] at h
    have hc : ¬c = ';' := fun hh => h.1 hh.symm
    rw [splitSW, Bool.false_and, if_neg (by decide : ¬(false = true)), if_neg hc,
      ih h.2, consHead_cons]

/-- The scanner state after a semicolon behaves like the base state as
soon as the next character is not whitespace. -/
theorem splitSW_true_eq_false (l : List Char)
    (h : ∀ c, l.head? = some c → isWsChar c = false) :
    splitSW true l = splitSW false l := by
  cases l with
  | nil => rfl
  | cons c rest =>
    have hc := h c rfl
    rw [splitSW, splitSW, Bool.true_and, Bool.false_and, hc,
      if_neg (by decide : ¬(false = true))]

theorem splitSW_chain (a b : List Char) (h : ';' ∉ a)
    (hb : ∀ c, b.head? = some c → isWsChar c = false) :
    splitSW false (a ++ ';' :: ' ' :: b) = a :: splitSW false b := by
  induction a with
  | nil =>
    rw [List.nil_append, splitSW, Bool.false_and, if_neg (by decide : ¬(false = true)),
      if_pos rfl]
    have h1 : splitSW true (' ' :: b) = splitSW true b := by
      rw [splitSW, Bool.true_and, show isWsChar ' ' = true from rfl, if_pos rfl]
    rw [h1, splitSW_true_eq_false b hb]
  | cons c rest ih =>
    rw [List.mem_cons, not_or] at h
    have hc : ¬c = ';' := fun hh => h.1 hh.symm
    rw [List.cons_append, splitSW, Bool.false_and, if_neg (by decide : ¬(false = true)),
      if_neg hc, ih h.2, consHead_cons]

theorem splitOnChar_no_sep (sep : Char) (l : List Char) (h : sep ∉ l) :
    splitOnChar sep l = [l] := by
  induction l with
  | nil => rfl
  | cons c rest ih =>
    rw [List.mem_cons, not_or] at h
    have hc : ¬c = sep := fun hh => h.1 hh.symm
    rw [splitOnChar, if_neg hc, ih h.2, consHead_cons]

theorem splitOnChar_chain (sep : Char) (a b : List Char) (h : sep ∉ a) :
    splitOnChar sep (a ++ sep :: b) = a :: splitOnChar sep b := by
  induction a with
  | nil => rw [List.nil_append, splitOnChar, if_pos rfl]
  | cons c rest ih =>
    rw [List.mem_cons, not_or] at h
    have hc : ¬c = sep := fun hh => h.1 hh.symm
    rw [List.cons_append, splitOnChar, if_neg hc, ih h.2, consHead_cons]

theorem takeWhile_append_stop (p : Char → Bool) (a : List Char) (c : Char) (b : List Char)
    (ha : ∀ x ∈ a, p x = true) (hc : p c = false) :
    (a ++ c :: b).takeWhile p = a := by
  induction a with
  | nil => simp [List.takeWhile_cons, hc]
  | cons x rest ih =>
    have hx := ha x (by simp)
    rw [List.cons_append, List.takeWhile_cons, hx]
    simp only [if_true]
    rw [ih (fun y hy => ha y (by simp [hy]))]

theorem dropWhile_append_stop (p : Char → Bool) (a : List Char) (c : Char) (b : List Char)
    (ha : ∀ x ∈ a, p x = true) (hc : p c = false) :
    (a ++ c :: b).dropWhile p = c :: b := by
  induction a with
  | nil => simp [List.dropWhile_cons, hc]
  | cons x rest ih =>
    have hx := ha x (by simp)
    rw [List.cons_append, List.dropWhile_cons, hx]
    simp only [if_true]
    exact ih (fun y hy => ha y (by simp [hy]))

/-! ## The decimal printer and parseInt are inverse -/

theorem digitChar_toNat (d : Nat) (h : d < 10) : (digitChar d).toNat = 48 + d := by
  interval_cases d <;> rfl

theorem digitChar_isDigit (d : Nat) (h : d < 10) : isDigitChar (digitChar d) = true := by
  rw [isDigitChar, digitChar_toNat d h]
  simp only [Bool.and_eq_true, decide_eq_true_eq]
  omega

theorem notWs_of_digit (c : Char) (h : isDigitChar c = true) : isWsChar c = false := by
  rw [isDigitChar] at h
  simp only [Bool.and_eq_true, decide_eq_true_eq] at h
  rw [isWsChar]
  simp only [Bool.or_eq_false_iff, decide_eq_false_iff_not]
  omega

theorem natDigitsRevFuel_digits (fuel n : Nat) :
    ∀ c ∈ natDigitsRevFuel fuel n, isDigitChar c = true := by
  induction fuel generalizing n with
  | zero => intro c hc; simp [natDigitsRevFuel] at hc
  | succ fuel ih =>
    intro c hc
    rw [natDigitsRevFuel] at hc
    by_cases hn : n = 0
    · simp [hn] at hc
    · rw [if_neg hn, List.mem_cons] at hc
      rcases hc with hc | hc
      · subst hc; exact digitChar_isDigit _ (Nat.mod_lt _ (by omega))
      · exact ih _ c hc

theorem digitsVal_append (l : List Char) (c : Char) :
    digitsVal (l ++ [c]) = 10 * digitsVal l + (c.toNat - 48) := by
  rw [digitsVal, digitsVal, List.foldl_append, List.foldl_cons, List.foldl_nil]

theorem digitsVal_natDigitsRevFuel (fuel : Nat) :
    ∀ n, n ≤ fuel → digitsVal (natDigitsRevFuel fuel n).reverse = n := by
  induction fuel with
  | zero =>
    intro n hn
    have : n = 0 := by omega
    subst this; rfl
  | succ fuel ih =>
    intro n hn
    by_cases hz : n = 0
    · subst hz; rfl
    · rw [natDigitsRevFuel, if_neg hz, List.reverse_cons, digitsVal_append,
        ih (n / 10) (by omega), digitChar_toNat _ (Nat.mod_lt _ (by omega))]
      omega

theorem digitsVal_natRepr (n : Nat) : digitsVal (natRepr n).data = n := by
  by_cases hz : n = 0
  · subst hz; rfl
  · rw [natRepr, if_neg hz]
    exact digitsVal_natDigitsRevFuel n n (le_refl n)

theorem natRepr_digits (n : Nat) : ∀ c ∈ (natRepr n).data, isDigitChar c = true := by
  by_cases hz : n = 0
  · subst hz; intro c hc; simp [natRepr] at hc; subst hc; rfl
  · rw [natRepr, if_neg hz]
    intro c hc
    exact natDigitsRevFuel_digits n n c (List.mem_reverse.mp (by simpa using hc))

theorem natRepr_ne_nil (n : Nat) : (natRepr n).data ≠ [] := by
  by_cases hz : n = 0
  · subst hz; simp [natRepr]
  · rw [natRepr, if_neg hz]
    intro hcon
    have h0 : natDigitsRevFuel n n = [] := by
      have := congrArg List.reverse hcon
      simpa using this
    have hv := digitsVal_natDigitsRevFuel n n (le_refl n)
    rw [h0] at hv
    exact hz (by simpa [digitsVal] using hv.symm)

theorem takeWhile_all (p : Char → Bool) (l : List Char) (h : ∀ c ∈ l, p c = true) :
    l.takeWhile p = l := by
  induction l with
  | nil => rfl
  | cons c rest ih =>
    rw [List.takeWhile_cons, h c (by simp)]
    simp only [if_true]
    rw [ih (fun y hy => h y (by simp [hy]))]

theorem intOfDigits_false_natRepr (n : Nat) :
    intOfDigits false (natRepr n).data = .num n := by
  rw [intOfDigits]
  have ht : (natRepr n).data.takeWhile isDigitChar = (natRepr n).data :=
    takeWhile_all _ _ (natRepr_digits n)
  simp only [ht]
  rw [if_neg (by simpa [List.isEmpty_iff] using natRepr_ne_nil n)]
  rw [digitsVal_natRepr]
  simp

/-- Parsing the decimal print of an integer returns the integer: the
max-age attribute survives the round trip through the wire format. -/
theorem jsParseInt_intRepr (m : Int) : jsParseInt (intRepr m) = .num m := by
  cases m with
  | ofNat n =>
    rw [intRepr, jsParseInt]
    cases hd : (natRepr n).data with
    | nil => exact absurd hd (natRepr_ne_nil n)
    | cons c r =>
      have hcd : isDigitChar c = true := natRepr_digits n c (by rw [hd]; simp)
      have hw : (natRepr n).data.dropWhile (fun c => isWsChar c) = c :: r := by
        rw [hd, List.dropWhile_cons, notWs_of_digit c hcd]
        simp
      rw [hd] at hw
      simp only [hw]
      have hm : ¬c = '-' := by
        intro hcon; subst hcon; rw [isDigitChar] at hcd; simp at hcd
      have hp : ¬c = '+' := by
        intro hcon; subst hcon; rw [isDigitChar] at hcd; simp at hcd
      rw [if_neg hm, if_neg hp, ← hd, intOfDigits_false_natRepr n]
      rfl
  | negSucc n =>
    rw [intRepr, jsParseInt]
    have hdata : ("-" ++ natRepr (n + 1)).data = '-' :: (natRepr (n + 1)).data := by
      rw [String.data_append]; rfl
    rw [hdata]
    rw [List.dropWhile_cons]
    simp only [show isWsChar '-' = false from rfl, Bool.false_eq_true, if_false]
    rw [if_pos trivial, intOfDigits]
    have ht : (natRepr (n + 1)).data.takeWhile isDigitChar = (natRepr (n + 1)).data :=
      takeWhile_all _ _ (natRepr_digits (n + 1))
    simp only [ht]
    rw [if_neg (by simpa [List.isEmpty_iff] using natRepr_ne_nil (n + 1))]
    rw [digitsVal_natRepr]
    simp [Int.negSucc_eq]

/-! ## Characterizations of the converters on well-typed inputs -/

theorem strMk_data (s : String) : String.mk s.data = s := rfl

theorem mapM_map_ok {α β : Type} (f : β → JSVal) (k : JSVal → Except JSErr α) (g : β → α)
    (h : ∀ b, k (f b) = .ok (g b)) (xs : List β) :
    (xs.map f).mapM k = .ok (xs.map g) := by
  induction xs with
  | nil => rfl
  | cons x xs ih =>
    rw [List.map_cons, List.mapM_cons, h x, ih, List.map_cons]
    rfl

theorem setCookieHeadersToCookieRecord_strings (hs : List String) :
    setCookieHeadersToCookieRecord (hs.map .str) =
      .ok ((hs.map (fun h => cookieHeaderToCookieRecord (headerPrefix h))).foldl
        recordMerge []) := by
  rw [setCookieHeadersToCookieRecord,
    mapM_map_ok JSVal.str _ (fun h => cookieHeaderToCookieRecord (headerPrefix h))
      (fun b => rfl) hs]
  rfl

theorem setCookieHeadersToCookieObjects_strings (hs : List String) (attrs : Obj) :
    setCookieHeadersToCookieObjects (hs.map .str) attrs =
      .ok (hs.map (fun s => recordMerge (parseSetCookieString s) attrs)) := by
  rw [setCookieHeadersToCookieObjects,
    mapM_map_ok JSVal.str _ (fun s => recordMerge (parseSetCookieString s) attrs)
      (fun b => rfl) hs]

/-! ## Which errors each function can produce -/

theorem bind_no_uf {α β : Type} (x : Except JSErr α) (f : α → Except JSErr β)
    (hx : x ≠ .error .unknownFormat) (hf : ∀ a, f a ≠ .error .unknownFormat) :
    (x >>= f) ≠ .error .unknownFormat := by
  cases x with
  | error e =>
    intro hcon
    have h3 : (Except.error e : Except JSErr β) = .error .unknownFormat := hcon
    injection h3 with h4
    subst h4
    exact hx rfl
  | ok a => intro hcon; exact hf a hcon

theorem mapM_no_uf {α : Type} (k : JSVal → Except JSErr α)
    (hk : ∀ e, k e ≠ .error .unknownFormat) (xs : List JSVal) :
    xs.mapM k ≠ .error .unknownFormat := by
  induction xs with
  | nil => intro hcon; exact Except.noConfusion hcon
  | cons x xs ih =>
    rw [List.mapM_cons]
    exact bind_no_uf _ _ (hk x)
      (fun b => bind_no_uf _ _ ih (fun bs hcon => Except.noConfusion hcon))

theorem getProp_no_uf (v : JSVal) (k : String) : getProp v k ≠ .error .unknownFormat := by
  cases v <;> intro hcon <;>
    first
    | exact Except.noConfusion hcon
    | (injection hcon with h; exact JSErr.noConfusion h)

theorem setCookieHeadersToCookieRecord_no_uf (hs : List JSVal) :
    setCookieHeadersToCookieRecord hs ≠ .error .unknownFormat := by
  rw [setCookieHeadersToCookieRecord]
  refine bind_no_uf _ _ (mapM_no_uf _ (fun e => ?_) hs)
    (fun recs hcon => Except.noConfusion hcon)
  cases e <;> intro hcon <;>
    first
    | exact Except.noConfusion hcon
    | (injection hcon with h; exact JSErr.noConfusion h)

theorem cookieObjectsToCookieRecord_no_uf (os : List JSVal) :
    cookieObjectsToCookieRecord os ≠ .error .unknownFormat := by
  rw [cookieObjectsToCookieRecord]
  refine bind_no_uf _ _ (mapM_no_uf _ (fun e => ?_) os)
    (fun pairs hcon => Except.noConfusion hcon)
  exact bind_no_uf _ _ (getProp_no_uf e "name")
    (fun n => bind_no_uf _ _ (getProp_no_uf e "value")
      (fun v hcon => Except.noConfusion hcon))

theorem setCookieHeadersToCookieObjects_no_uf (hs : List JSVal) (attrs : Obj) :
    setCookieHeadersToCookieObjects hs attrs ≠ .error .unknownFormat := by
  rw [setCookieHeadersToCookieObjects]
  refine mapM_no_uf _ (fun e => ?_) hs
  cases e <;> intro hcon <;>
    first
    | exact Except.noConfusion hcon
    | (injection hcon with h; exact JSErr.noConfusion h)

/-! ## Claim C1 -/

/-- C1 counterexample: the universal converter has a required data
parameter, so a call with no arguments receives undefined and raises the
UnknownFormat error instead of returning an empty collection. -/
theorem anyToCookieRecord_no_args_throws :
    anyToCookieRecord .undef = .error .unknownFormat := rfl

/-- C1 (amended): every public conversion function whose parameters all
carry defaults returns an empty record, array or string when called with
no arguments and never throws; the four universal converters have a
required data parameter, and a no-argument call reaches them as undefined
and raises the UnknownFormat error. -/
theorem no_argument_behavior :
    parse "" = [] ∧
    cookieHeaderToCookieRecord "" = [] ∧
    setCookieHeadersToCookieRecord [] = .ok [] ∧
    cookieObjectsToCookieRecord [] = .ok [] ∧
    cookieRecordToCookieHeader [] = "" ∧
    cookieRecordToCookieObjects [] [] = [] ∧
    setCookieHeadersToCookieObjects [] [] = .ok [] ∧
    cookieObjectsToSetCookieHeaders [] [] = [] ∧
    anyToCookieRecord .undef = .error .unknownFormat ∧
    anyToCookieHeader .undef = .error .unknownFormat ∧
    anyToCookieObjects .undef [] = .error .unknownFormat ∧
    anyToSetCookieHeaders .undef [] = .error .unknownFormat :=
  ⟨rfl, rfl, rfl, rfl, rfl, rfl, rfl, rfl, rfl, rfl, rfl, rfl⟩

/-! ## Claim C7 -/

/-- C7 counterexample: for the header a=b=c the parsed object has value b,
the chunk between the first and the second equals sign, and not b=c as the
claim states, because the source splits the first segment on every equals
sign and keeps only the second piece. -/
theorem setCookieValue_not_rest_after_eq :
    setCookieHeadersToCookieObjects [.str "a=b=c"] [] =
      .ok [[("name", .str "a"), ("value", .str "b")]] ∧
    JSVal.str "b" ≠ JSVal.str "b=c" :=
  ⟨rfl, by simp⟩

/-- C7 (amended): the first segment of a Set-Cookie header is split on
every equals sign and the name and value are its first two pieces: for a
first segment of the form a=b=c the object has name a and value b, the
chunk between the first and second equals signs. -/
theorem setCookieHeaders_first_segment_split (a b c : String)
    (ha1 : '=' ∉ a.data) (ha2 : ';' ∉ a.data)
    (hb1 : '=' ∉ b.data) (hb2 : ';' ∉ b.data)
    (hc2 : ';' ∉ c.data) :
    setCookieHeadersToCookieObjects [.str (a ++ "=" ++ b ++ "=" ++ c)] [] =
      .ok [[("name", .str a), ("value", .str b)]] := by
  have hdata : (a ++ "=" ++ b ++ "=" ++ c).data =
      a.data ++ '=' :: (b.data ++ '=' :: c.data) := by
    simp [String.data_append]
  have hsemi : ';' ∉ a.data ++ '=' :: (b.data ++ '=' :: c.data) := by
    simp only [List.mem_append, List.mem_cons]
    intro hcon
    rcases hcon with h | h | h | h | h
    · exact ha2 h
    · exact absurd h (by decide)
    · exact hb2 h
    · exact absurd h (by decide)
    · exact hc2 h
  have hsplit : splitSemiWs (a ++ "=" ++ b ++ "=" ++ c).data =
      [a.data ++ '=' :: (b.data ++ '=' :: c.data)] := by
    rw [hdata, splitSemiWs, splitSW_no_semi _ hsemi]
  have hnv : splitOnChar '=' (a.data ++ '=' :: (b.data ++ '=' :: c.data)) =
      a.data :: b.data :: splitOnChar '=' c.data := by
    rw [splitOnChar_chain '=' a.data _ ha1, splitOnChar_chain '=' b.data _ hb1]
  rw [show (([.str (a ++ "=" ++ b ++ "=" ++ c)] : List JSVal)) =
      ([a ++ "=" ++ b ++ "=" ++ c].map JSVal.str) from rfl,
    setCookieHeadersToCookieObjects_strings]
  rw [List.map_cons, List.map_nil, recordMerge_nil]
  unfold parseSetCookieString
  rw [hsplit]
  simp only [List.map_cons, List.map_nil, List.headD_cons, List.tail_cons]
  rw [hnv]
  simp only [List.map_cons, List.headD_cons, List.foldl_nil,
    List.get?_eq_getElem?, List.getElem?_cons_zero, List.getElem?_cons_succ,
    strMk_data]

/-- C7 witness: the amended split behavior at the concrete header a=b=c. -/
theorem setCookieHeaders_first_segment_split_witness :
    setCookieHeadersToCookieObjects [.str ("a" ++ "=" ++ "b" ++ "=" ++ "c")] [] =
      .ok [[("name", .str "a"), ("value", .str "b")]] :=
  setCookieHeaders_first_segment_split "a" "b" "c"
    (by decide) (by decide) (by decide) (by decide) (by decide)

/-! ## Claim C9 -/

/-- C9: an array whose first element is neither a string nor a non-null
object of the runtime (the empty array included) makes anyToCookieObjects
return the empty array without raising, while anyToCookieRecord falls
through all branches on the same input and raises the UnknownFormat
error. -/
theorem junk_array_dispatch (xs : List JSVal) (attrs : Obj)
    (h : ∀ e, xs.head? = some e →
      isStringVal e = false ∧ (isTypeofObject e = false ∨ e = .null)) :
    anyToCookieObjects (.arr xs) attrs = .ok [] ∧
    anyToCookieRecord (.arr xs) = .error .unknownFormat := by
  cases xs with
  | nil => exact ⟨rfl, rfl⟩
  | cons e rest =>
    obtain ⟨hs, ho⟩ := h e rfl
    cases e with
    | str s => simp [isStringVal] at hs
    | obj f => rcases ho with ho | ho <;> simp [isTypeofObject] at ho
    | arr l => rcases ho with ho | ho <;> simp [isTypeofObject] at ho
    | date r => rcases ho with ho | ho <;> simp [isTypeofObject] at ho
    | num n => exact ⟨rfl, rfl⟩
    | nan => exact ⟨rfl, rfl⟩
    | bool b => exact ⟨rfl, rfl⟩
    | undef => exact ⟨rfl, rfl⟩
    | null => exact ⟨rfl, rfl⟩

/-- C9 witness: the number-first array and the empty array behave as the
claim states. -/
theorem junk_array_dispatch_witness :
    anyToCookieObjects (.arr [.num 42]) [] = .ok [] ∧
    anyToCookieRecord (.arr [.num 42]) = .error .unknownFormat :=
  junk_array_dispatch [.num 42] []
    (by intro e he; simp at he; subst he; exact ⟨rfl, Or.inl rfl⟩)

theorem except_map_error {α β : Type} (x : Except JSErr α) (f : α → β) (err : JSErr)
    (h : x.map f = .error err) : x = .error err := by
  cases x with
  | ok a => exact absurd h (by simp [Except.map])
  | error e => simpa [Except.map] using h

/-! ## Claim C5 -/

/-- C5: the Set-Cookie array to record conversion is a left fold merging
the parsed name-value prefixes, with later array entries overwriting
earlier ones with the same name: the empty array yields the empty record,
the headers a=1 and a=2 yield the record mapping a to 2, and appending
one header to the array spreads its prefix record over the accumulated
result. -/
theorem setCookieHeaders_record_left_fold :
    setCookieHeadersToCookieRecord [] = .ok [] ∧
    setCookieHeadersToCookieRecord [.str "a=1", .str "a=2"] = .ok [("a", .str "2")] ∧
    ∀ (hs : List String) (h : String),
      setCookieHeadersToCookieRecord ((hs ++ [h]).map .str) =
        (setCookieHeadersToCookieRecord (hs.map .str)).map
          (fun r => recordMerge r (cookieHeaderToCookieRecord (headerPrefix h))) := by
  refine ⟨rfl, rfl, fun hs h => ?_⟩
  rw [setCookieHeadersToCookieRecord_strings, setCookieHeadersToCookieRecord_strings,
    List.map_append, List.map_cons, List.map_nil, List.foldl_append, List.foldl_cons,
    List.foldl_nil]
  rfl

/-! ## Claim C4 -/

/-- C4 counterexample: the array with first element a=1 and second element
42 is a recognized shape (its first element is a string), yet the
conversion raises a type error when it calls split on the number, so a
recognized shape does not guarantee a record is returned without
raising. -/
theorem recognized_shape_can_type_error :
    recognizedShape (.arr [.str "a=1", .num 42]) = true ∧
    anyToCookieRecord (.arr [.str "a=1", .num 42]) = .error .typeError :=
  ⟨rfl, rfl⟩

/-- C4 (amended): anyToCookieRecord raises the UnknownFormat error exactly
on the shapes outside the recognized set; on a recognized shape it never
raises UnknownFormat, although a recognized array with ill-typed later
elements raises a type error instead of returning a record; and no other
conversion function produces the UnknownFormat error except by routing
through anyToCookieRecord. -/
theorem anyToCookieRecord_unknownFormat_iff :
    (∀ d, anyToCookieRecord d = .error .unknownFormat ↔ recognizedShape d = false) ∧
    (∀ d a, anyToCookieObjects d a = .error .unknownFormat →
      anyToCookieRecord d = .error .unknownFormat) ∧
    (∀ d, anyToCookieHeader d = .error .unknownFormat →
      anyToCookieRecord d = .error .unknownFormat) ∧
    (∀ d a, anyToSetCookieHeaders d a = .error .unknownFormat →
      anyToCookieRecord d = .error .unknownFormat) ∧
    (∀ hs, setCookieHeadersToCookieRecord hs ≠ .error .unknownFormat) ∧
    (∀ os, cookieObjectsToCookieRecord os ≠ .error .unknownFormat) ∧
    (∀ hs a, setCookieHeadersToCookieObjects hs a ≠ .error .unknownFormat) := by
  have hobjroute : ∀ d a, anyToCookieObjects d a = .error .unknownFormat →
      anyToCookieRecord d = .error .unknownFormat := by
    intro d a h
    cases d with
    | arr elems =>
      exfalso
      cases elems with
      | nil => exact Except.noConfusion h
      | cons e rest =>
        cases e with
        | str s => exact setCookieHeadersToCookieObjects_no_uf _ _ h
        | obj f => exact Except.noConfusion h
        | date r => exact Except.noConfusion h
        | arr l => exact Except.noConfusion h
        | null => exact Except.noConfusion h
        | num n => exact Except.noConfusion h
        | nan => exact Except.noConfusion h
        | bool b => exact Except.noConfusion h
        | undef => exact Except.noConfusion h
    | obj f => exact except_map_error (anyToCookieRecord _) (fun r => cookieRecordToCookieObjects r a) _ h
    | date r => exact except_map_error (anyToCookieRecord _) (fun r => cookieRecordToCookieObjects r a) _ h
    | str s => exact except_map_error (anyToCookieRecord _) (fun r => cookieRecordToCookieObjects r a) _ h
    | num n => exact except_map_error (anyToCookieRecord _) (fun r => cookieRecordToCookieObjects r a) _ h
    | nan => exact except_map_error (anyToCookieRecord _) (fun r => cookieRecordToCookieObjects r a) _ h
    | bool b => exact except_map_error (anyToCookieRecord _) (fun r => cookieRecordToCookieObjects r a) _ h
    | undef => exact except_map_error (anyToCookieRecord _) (fun r => cookieRecordToCookieObjects r a) _ h
    | null => exact except_map_error (anyToCookieRecord _) (fun r => cookieRecordToCookieObjects r a) _ h
  refine ⟨fun d => ?_, hobjroute, fun d h => except_map_error (anyToCookieRecord d) cookieRecordToCookieHeader _ h,
    fun d a h => hobjroute d a (except_map_error (anyToCookieObjects d a)
      (fun objects => cookieObjectsToSetCookieHeaders (objects.map JSVal.obj) []) _ h),
    setCookieHeadersToCookieRecord_no_uf, cookieObjectsToCookieRecord_no_uf,
    setCookieHeadersToCookieObjects_no_uf⟩
  cases d with
  | obj f => simp [anyToCookieRecord, recognizedShape]
  | date r => simp [anyToCookieRecord, recognizedShape]
  | str s => simp [anyToCookieRecord, recognizedShape]
  | num n => simp [anyToCookieRecord, recognizedShape]
  | nan => simp [anyToCookieRecord, recognizedShape]
  | bool b => simp [anyToCookieRecord, recognizedShape]
  | undef => simp [anyToCookieRecord, recognizedShape]
  | null => simp [anyToCookieRecord, recognizedShape]
  | arr elems =>
    cases elems with
    | nil => simp [anyToCookieRecord, recognizedShape]
    | cons e rest =>
      cases e with
      | str s =>
        have hne := setCookieHeadersToCookieRecord_no_uf (JSVal.str s :: rest)
        simp [anyToCookieRecord, recognizedShape, isStringVal, hne]
      | obj f =>
        have hne := cookieObjectsToCookieRecord_no_uf (JSVal.obj f :: rest)
        simp [anyToCookieRecord, recognizedShape, isStringVal, isTypeofObject, hne]
      | arr l =>
        have hne := cookieObjectsToCookieRecord_no_uf (JSVal.arr l :: rest)
        simp [anyToCookieRecord, recognizedShape, isStringVal, isTypeofObject, hne]
      | date r =>
        have hne := cookieObjectsToCookieRecord_no_uf (JSVal.date r :: rest)
        simp [anyToCookieRecord, recognizedShape, isStringVal, isTypeofObject, hne]
      | null => simp [anyToCookieRecord, recognizedShape, isStringVal, isTypeofObject]
      | num n => simp [anyToCookieRecord, recognizedShape, isStringVal, isTypeofObject]
      | nan => simp [anyToCookieRecord, recognizedShape, isStringVal, isTypeofObject]
      | bool b => simp [anyToCookieRecord, recognizedShape, isStringVal, isTypeofObject]
      | undef => simp [anyToCookieRecord, recognizedShape, isStringVal, isTypeofObject]

/-- C4 witness: the iff applied at the number 7, an unrecognized shape,
yields the UnknownFormat error. -/
theorem anyToCookieRecord_unknownFormat_iff_witness :
    anyToCookieRecord (.num 7) = .error .unknownFormat :=
  (anyToCookieRecord_unknownFormat_iff.1 (.num 7)).mpr rfl

/-! ## More object algebra: keys, erasure and the options fold -/

theorem not_mem_keys_of_hasKey_false (o : Obj) (k : String) (h : hasKey o k = false) :
    k ∉ objKeys o := by
  intro hmem
  rw [objKeys, List.mem_map] at hmem
  obtain ⟨p, hp, hpk⟩ := hmem
  rw [hasKey] at h
  have := List.any_eq_false.mp h p hp
  simp [hpk] at this

theorem objKeys_map_update (o : Obj) (k : String) (v : JSVal) :
    objKeys (o.map (fun p => if p.1 = k then (k, v) else p)) = objKeys o := by
  induction o with
  | nil => rfl
  | cons p o ih =>
    by_cases hp : p.1 = k
    · simp [hp, ih]
    · simp [hp, ih]

theorem objKeys_objSet_nodup (o : Obj) (k : String) (v : JSVal)
    (h : (objKeys o).Nodup) : (objKeys (objSet o k v)).Nodup := by
  unfold objSet
  by_cases hk : hasKey o k
  · rw [if_pos hk, objKeys_map_update]; exact h
  · rw [if_neg hk, objKeys, List.map_append]
    rw [List.nodup_append]
    refine ⟨h, List.nodup_singleton k, ?_⟩
    intro x hx hx1
    have hxk : x = k := by simpa using hx1
    subst hxk
    exact not_mem_keys_of_hasKey_false o x (by simpa using hk) hx

theorem recordMerge_keys_nodup (o attrs : Obj) (h : (objKeys o).Nodup) :
    (objKeys (recordMerge o attrs)).Nodup := by
  induction attrs generalizing o with
  | nil => exact h
  | cons p attrs ih => exact ih _ (objKeys_objSet_nodup o p.1 p.2 h)

theorem entries_unique_of_lookup (o : Obj) (k : String) (v : JSVal)
    (hnd : (objKeys o).Nodup) (hv : objLookup o k = some v) :
    ∀ p ∈ o, p.1 = k → p.2 = v := by
  induction o with
  | nil => intro p hp; simp at hp
  | cons q rest ih =>
    rw [objKeys_cons, List.nodup_cons] at hnd
    intro p hp hpk
    rcases List.mem_cons.mp hp with hp | hp
    · subst hp
      rw [objLookup_cons, if_pos hpk] at hv
      exact (Option.some.injEq _ _).mp hv
    · by_cases hq : q.1 = k
      · exfalso
        apply hnd.1
        rw [← hq] at hpk
        rw [objKeys, List.mem_map]
        exact ⟨p, hp, hpk.symm ▸ hpk ▸ rfl⟩
      · rw [objLookup_cons, if_neg hq] at hv
        exact ih hnd.2 hv p hp hpk

theorem objLookup_objErase_ne (o : Obj) (k k' : String) (h : ¬k' = k) :
    objLookup (objErase o k) k' = objLookup o k' := by
  induction o with
  | nil => rfl
  | cons p rest ih =>
    have ih' := ih
    rw [objErase] at ih'
    rw [objErase, List.filter_cons]
    by_cases hp : p.1 = k
    · have hpk' : ¬p.1 = k' := by rw [hp]; intro hc; exact h hc.symm
      rw [if_neg (show ¬(decide (p.1 ≠ k) = true) from by simp [hp])]
      rw [objLookup_cons, if_neg hpk']
      exact ih'
    · have hd : (decide (p.1 ≠ k)) = true := by simp [hp]
      rw [hd, if_pos rfl, objLookup_cons, objLookup_cons]
      by_cases hpk' : p.1 = k'
      · rw [if_pos hpk', if_pos hpk']
      · rw [if_neg hpk', if_neg hpk']
        exact ih'

theorem objLookup_objErase_self (o : Obj) (k : String) :
    objLookup (objErase o k) k = none := by
  induction o with
  | nil => rfl
  | cons p rest ih =>
    have ih' := ih
    rw [objErase] at ih'
    rw [objErase, List.filter_cons]
    by_cases hp : p.1 = k
    · rw [if_neg (show ¬(decide (p.1 ≠ k) = true) from by simp [hp])]
      exact ih'
    · have hd : (decide (p.1 ≠ k)) = true := by simp [hp]
      rw [hd, if_pos rfl, objLookup_cons, if_neg hp]
      exact ih'

theorem objErase_comm (o : Obj) (a b : String) :
    objErase (objErase o a) b = objErase (objErase o b) a := by
  rw [objErase, objErase, objErase, objErase, List.filter_filter, List.filter_filter]
  congr 1
  funext p
  rw [Bool.and_comm]

theorem foldl_optStep_erase (l : Obj) (k : String)
    (h : ∀ p ∈ l, p.1 = k → p.2 = .undef) :
    ∀ acc, (objErase l k).foldl optStep acc = l.foldl optStep acc := by
  induction l with
  | nil => intro acc; rfl
  | cons p rest ih =>
    intro acc
    have ih' := ih (fun q hq hqk => h q (by simp [hq]) hqk)
    rw [objErase] at ih'
    rw [objErase, List.filter_cons]
    by_cases hp : p.1 = k
    · obtain ⟨p1, p2⟩ := p
      have hundef : p2 = .undef := h (p1, p2) (by simp) hp
      subst hundef
      rw [if_neg (show ¬(decide ((p1, JSVal.undef).1 ≠ k) = true) from by
        simp only [decide_eq_true_eq, ne_eq, not_not]; exact hp)]
      exact ih' acc
    · have hd : (decide (p.1 ≠ k)) = true := by simp [hp]
      rw [hd, if_pos rfl, List.foldl_cons, List.foldl_cons]
      exact ih' (optStep acc p)

/-! ## Claim C6 -/

/-- C6: serializing one object spreads the caller-supplied attributes over
the fields of the object with the attributes winning per key and the
object fields absent from the attributes surviving, and the concrete
override example produces a header carrying Path=/api,
Domain=example.com, Secure and HttpOnly. -/
theorem attrs_override_merge :
    (strContains ((cookieObjectsToSetCookieHeaders
        [.obj [("name", .str "session"), ("value", .str "abc"),
               ("path", .str "/"), ("httpOnly", .bool true)]]
        [("path", .str "/api"), ("secure", .bool true),
         ("domain", .str "example.com")]).headD "") "Path=/api" = true ∧
      strContains ((cookieObjectsToSetCookieHeaders
        [.obj [("name", .str "session"), ("value", .str "abc"),
               ("path", .str "/"), ("httpOnly", .bool true)]]
        [("path", .str "/api"), ("secure", .bool true),
         ("domain", .str "example.com")]).headD "") "Domain=example.com" = true ∧
      strContains ((cookieObjectsToSetCookieHeaders
        [.obj [("name", .str "session"), ("value", .str "abc"),
               ("path", .str "/"), ("httpOnly", .bool true)]]
        [("path", .str "/api"), ("secure", .bool true),
         ("domain", .str "example.com")]).headD "") "Secure" = true ∧
      strContains ((cookieObjectsToSetCookieHeaders
        [.obj [("name", .str "session"), ("value", .str "abc"),
               ("path", .str "/"), ("httpOnly", .bool true)]]
        [("path", .str "/api"), ("secure", .bool true),
         ("domain", .str "example.com")]).headD "") "HttpOnly" = true) ∧
    (∀ (o attrs : Obj),
      cookieObjectsToSetCookieHeaders [.obj o] attrs =
        cookieObjectsToSetCookieHeaders [.obj (recordMerge o attrs)] []) ∧
    (∀ (o attrs : Obj) (k : String), (objKeys attrs).Nodup →
      objLookup (recordMerge o attrs) k = optOr (objLookup attrs k) (objLookup o k)) := by
  exact ⟨⟨rfl, rfl, rfl, rfl⟩, fun o attrs => rfl,
    fun o attrs k h => objLookup_recordMerge o attrs k h⟩

/-- C6 witness: the merge semantics at one concrete object, attribute set
and key, with the uniqueness hypothesis on the attribute keys discharged
by computation. -/
theorem attrs_override_merge_witness :
    objLookup (recordMerge [("path", JSVal.str "/")] [("path", JSVal.str "/api")]) "path" =
      optOr (objLookup [("path", JSVal.str "/api")] "path")
        (objLookup [("path", JSVal.str "/")] "path") :=
  attrs_override_merge.2.2 [("path", JSVal.str "/")] [("path", JSVal.str "/api")] "path"
    (by decide)

/-! ## Claim C10 -/

/-- C10: a key of the merged object and attributes record whose value is
undefined is skipped entirely when the serialization options are built,
so it contributes no attribute to the Set-Cookie string: the output is
the one produced by the merged record with that key removed. -/
theorem undefined_field_skipped (o attrs : Obj) (k : String)
    (hnd : (objKeys o).Nodup)
    (hm : objLookup (recordMerge o attrs) k = some .undef) :
    cookieObjectsToSetCookieHeaders [.obj o] attrs =
      cookieObjectsToSetCookieHeaders [.obj (objErase (recordMerge o attrs) k)] [] := by
  have hMnd : (objKeys (recordMerge o attrs)).Nodup := recordMerge_keys_nodup o attrs hnd
  have hentries : ∀ p ∈ recordMerge o attrs, p.1 = k → p.2 = .undef :=
    entries_unique_of_lookup _ k .undef hMnd hm
  have hname : (objLookup (objErase (recordMerge o attrs) k) "name").getD .undef =
      (objLookup (recordMerge o attrs) "name").getD .undef := by
    by_cases hk : "name" = k
    · subst hk
      rw [objLookup_objErase_self, hm]
      rfl
    · rw [objLookup_objErase_ne _ _ _ hk]
  have hvalue : (objLookup (objErase (recordMerge o attrs) k) "value").getD .undef =
      (objLookup (recordMerge o attrs) "value").getD .undef := by
    by_cases hk : "value" = k
    · subst hk
      rw [objLookup_objErase_self, hm]
      rfl
    · rw [objLookup_objErase_ne _ _ _ hk]
  have hrest : objErase (objErase (objErase (recordMerge o attrs) k) "name") "value" =
      objErase (objErase (objErase (recordMerge o attrs) "name") "value") k := by
    rw [objErase_comm (recordMerge o attrs) k "name",
      objErase_comm (objErase (recordMerge o attrs) "name") k "value"]
  have hopts : optionsOfRest (objErase (objErase (objErase (recordMerge o attrs) "name")
        "value") k) =
      optionsOfRest (objErase (objErase (recordMerge o attrs) "name") "value") := by
    rw [optionsOfRest, optionsOfRest]
    exact foldl_optStep_erase _ k
      (fun p hp hpk => hentries p
        (List.mem_filter.mp ((List.mem_filter.mp hp).1)).1 hpk) []
  simp only [cookieObjectsToSetCookieHeaders, List.map_cons, List.map_nil, spreadFields,
    recordMerge_nil]
  rw [hname, hvalue, hrest, hopts]

/-- C10 witness: setting the path to undefined in the attributes over an
object carrying a real path yields the same header as removing the path
key from the merged record. -/
theorem undefined_field_skipped_witness :
    cookieObjectsToSetCookieHeaders
        [.obj [("name", .str "a"), ("value", .str "b"), ("path", .str "/")]]
        [("path", .undef)] =
      cookieObjectsToSetCookieHeaders
        [.obj (objErase (recordMerge
          [("name", JSVal.str "a"), ("value", JSVal.str "b"), ("path", JSVal.str "/")]
          [("path", JSVal.undef)]) "path")] [] :=
  undefined_field_skipped
    [("name", JSVal.str "a"), ("value", JSVal.str "b"), ("path", JSVal.str "/")]
    [("path", JSVal.undef)] "path" (by decide) rfl

/-! ## The record to header round trip -/

theorem strAppend_empty (s : String) : s ++ "" = s := by
  cases s with
  | mk l => exact congrArg String.mk (List.append_nil l)

theorem jsToString_str (s : String) : jsToString (.str s) = s := rfl

theorem strPairSegment (a b : String) : a ++ "=" ++ b = String.mk (a.data ++ '=' :: b.data) := by
  cases a with
  | mk l1 =>
    cases b with
    | mk l2 =>
      show String.mk ((l1 ++ "=".data) ++ l2) = String.mk (l1 ++ '=' :: l2)
      rw [List.append_assoc]
      rfl

/-- Serializing one pair with no options yields the bare name-value
form. -/
theorem serialize_pair (n : String) (v : JSVal) :
    serialize n v [] = n ++ "=" ++ jsToString v := by
  unfold serialize
  simp [objLookup_nil, strAppend_empty]

theorem strData_ne_nil (s : String) (h : s.data ≠ []) : s ≠ "" := by
  intro hcon
  rw [hcon] at h
  exact h rfl

theorem splitSemiList_joinSep (segs : List (List Char))
    (h : ∀ s ∈ segs, ';' ∉ s) (hne : segs ≠ []) :
    splitSemiList (joinSep "; " (segs.map String.mk)).data = segs := by
  induction segs with
  | nil => exact absurd rfl hne
  | cons x rest ih =>
    cases rest with
    | nil =>
      rw [List.map_cons, List.map_nil, joinSep]
      exact splitSemiList_no_semi x (h x (by simp))
    | cons y t =>
      rw [List.map_cons, joinSep]
      have hx := h x (by simp)
      have hdata : ((String.mk x ++ "; ") ++ joinSep "; " ((y :: t).map String.mk)).data =
          x ++ ';' :: ' ' :: (joinSep "; " ((y :: t).map String.mk)).data := by
        rw [String.data_append, String.data_append, List.append_assoc]
        rfl
      have hih := ih (fun s hs => h s (by simp [hs])) (by simp)
      rw [hdata, splitSemiList_chain _ _ hx, hih]
      simp

/-- One serialized pair parses back to the pair when the name carries no
equals sign. -/
theorem pairOfSegment_pair (n v : String) (hn : '=' ∉ n.data) :
    pairOfSegment (n.data ++ '=' :: v.data) = (n, .str v) := by
  rw [pairOfSegment]
  have hall : ∀ x ∈ n.data, (decide (x ≠ '=')) = true := by
    intro x hx
    simp only [decide_eq_true_eq]
    intro hc
    exact hn (hc ▸ hx)
  have heq : (decide (('=' : Char) ≠ '=')) = false := by decide
  rw [takeWhile_append_stop _ _ _ _ hall heq, dropWhile_append_stop _ _ _ _ hall heq]

theorem hasKey_append (a b : Obj) (k : String) :
    hasKey (a ++ b) k = (hasKey a k || hasKey b k) := by
  rw [hasKey, hasKey, hasKey, List.any_append]

/-- The first-wins insertion fold of parse appends fresh keys in order. -/
theorem foldl_insert_fresh (ps : List (String × JSVal))
    (hnd : (ps.map (fun p => p.1)).Nodup) :
    ∀ acc, (∀ p ∈ ps, hasKey acc p.1 = false) →
      ps.foldl (fun acc p => if hasKey acc p.1 then acc else acc ++ [p]) acc = acc ++ ps := by
  induction ps with
  | nil => intro acc _; rw [List.foldl_nil, List.append_nil]
  | cons p rest ih =>
    rw [List.map_cons, List.nodup_cons] at hnd
    intro acc hfresh
    rw [List.foldl_cons,
      if_neg (show ¬(hasKey acc p.1 = true) from by
        rw [hfresh p (by simp)]; exact fun hc => Bool.noConfusion hc)]
    have hfresh2 : ∀ q ∈ rest, hasKey (acc ++ [p]) q.1 = false := by
      intro q hq
      have hqp : ¬p.1 = q.1 := fun hc => hnd.1 (List.mem_map.mpr ⟨q, hq, hc.symm⟩)
      rw [hasKey_append, hfresh q (by simp [hq]), Bool.false_or]
      simp [hasKey, hqp]
    rw [ih hnd.2 (acc ++ [p]) hfresh2, List.append_assoc]
    rfl

/-! ## Claim C2 -/

/-- C2: for every record whose names and values are free of the semicolon
and equals delimiters, serializing it to a Cookie header and parsing the
header back returns the record unchanged. -/
theorem cookieRecord_header_roundtrip (r : List (String × String))
    (hnd : (r.map (fun p => p.1)).Nodup)
    (hclean : ∀ p ∈ r, cleanStr p.1 ∧ cleanStr p.2) :
    cookieHeaderToCookieRecord
        (cookieRecordToCookieHeader (r.map (fun p => (p.1, JSVal.str p.2)))) =
      r.map (fun p => (p.1, JSVal.str p.2)) := by
  have hheader : cookieRecordToCookieHeader (r.map (fun p => (p.1, JSVal.str p.2))) =
      joinSep "; " ((r.map (fun p => p.1.data ++ '=' :: p.2.data)).map String.mk) := by
    rw [cookieRecordToCookieHeader, List.map_map, List.map_map]
    congr 1
    apply List.map_congr_left
    intro p hp
    show serialize p.1 (JSVal.str p.2) [] = String.mk (p.1.data ++ '=' :: p.2.data)
    rw [serialize_pair, jsToString_str, strPairSegment]
  rw [cookieHeaderToCookieRecord, hheader]
  cases hr : r with
  | nil => rfl
  | cons q t =>
    rw [← hr]
    have hrne : r ≠ [] := by rw [hr]; simp
    have hsegs : ∀ s ∈ r.map (fun p => p.1.data ++ '=' :: p.2.data), ';' ∉ s := by
      intro s hs
      rw [List.mem_map] at hs
      obtain ⟨p, hp, hps⟩ := hs
      subst hps
      obtain ⟨⟨hn1, _⟩, ⟨hv1, _⟩⟩ := hclean p hp
      simp only [List.mem_append, List.mem_cons, not_or]
      exact ⟨hn1, by decide, hv1⟩
    have hne : (joinSep "; " ((r.map (fun p => p.1.data ++ '=' :: p.2.data)).map
        String.mk)) ≠ "" := by
      apply strData_ne_nil
      have := splitSemiList_joinSep _ hsegs (by rw [hr]; simp)
      intro hcon
      rw [hcon] at this
      have h2 : ([[]] : List (List Char)) = r.map (fun p => p.1.data ++ '=' :: p.2.data) :=
        this
      rw [hr, List.map_cons] at h2
      have h4 := ((List.cons.injEq _ _ _ _).mp h2).1
      cases hq1 : q.1.data with
      | nil => rw [hq1] at h4; exact List.noConfusion h4
      | cons c cs => rw [hq1] at h4; exact List.noConfusion h4
    rw [parse, if_neg hne, splitSemiList_joinSep _ hsegs (by rw [hr]; simp)]
    have hext : (r.map (fun p => p.1.data ++ '=' :: p.2.data)).foldl
        (fun acc seg =>
          let p := pairOfSegment seg
          if hasKey acc p.1 then acc else acc ++ [p]) [] =
        (r.map (fun p => (p.1, JSVal.str p.2))).foldl
          (fun acc p => if hasKey acc p.1 then acc else acc ++ [p]) [] := by
      rw [List.foldl_map, List.foldl_map]
      apply List.foldl_ext
      intro acc p hp
      obtain ⟨⟨hn1, hn2⟩, _⟩ := hclean p hp
      rw [pairOfSegment_pair p.1 p.2 hn2]
    rw [hext, foldl_insert_fresh _ (by simpa using hnd) [] (fun p hp => rfl),
      List.nil_append]

/-- C2 witness: the round trip at a concrete two-cookie record. -/
theorem cookieRecord_header_roundtrip_witness :
    cookieHeaderToCookieRecord
        (cookieRecordToCookieHeader
          ([("session", "abc123"), ("id", "42")].map (fun p => (p.1, JSVal.str p.2)))) =
      [("session", "abc123"), ("id", "42")].map (fun p => (p.1, JSVal.str p.2)) :=
  cookieRecord_header_roundtrip [("session", "abc123"), ("id", "42")]
    (by decide) (by decide)

/-! ## The Set-Cookie record route through the object array -/

theorem data_strMk (l : List Char) : (String.mk l).data = l := rfl

theorem headD_map_mk (l : List (List Char)) :
    (l.map String.mk).headD "" = String.mk (l.headD []) := by
  cases l <;> rfl

theorem recordMerge_single (acc : Obj) (n : String) (v : JSVal) :
    recordMerge acc [(n, v)] = objSet acc n v := rfl

theorem dropWhile_all (p : Char → Bool) (l : List Char) (h : ∀ c ∈ l, p c = true) :
    l.dropWhile p = [] := by
  induction l with
  | nil => rfl
  | cons c rest ih =>
    rw [List.dropWhile_cons, h c (by simp)]
    simp only [if_true]
    exact ih (fun y hy => h y (by simp [hy]))

theorem pairOfSegment_split (a b : List Char) (ha : '=' ∉ a) :
    pairOfSegment (a ++ '=' :: b) = (String.mk a, .str (String.mk b)) := by
  rw [pairOfSegment]
  have hall : ∀ x ∈ a, (decide (x ≠ '=')) = true := by
    intro x hx
    simp only [decide_eq_true_eq]
    intro hc
    exact ha (hc ▸ hx)
  have heq : (decide (('=' : Char) ≠ '=')) = false := by decide
  rw [takeWhile_append_stop _ _ _ _ hall heq, dropWhile_append_stop _ _ _ _ hall heq]

theorem pairOfSegment_noEq (p : List Char) (hp : '=' ∉ p) :
    pairOfSegment p = (String.mk p, .undef) := by
  rw [pairOfSegment]
  have hall : ∀ x ∈ p, (decide (x ≠ '=')) = true := by
    intro x hx
    simp only [decide_eq_true_eq]
    intro hc
    exact hp (hc ▸ hx)
  rw [takeWhile_all _ _ hall, dropWhile_all _ _ hall]

theorem splitSW_ne_nil (l : List Char) : ∀ b, splitSW b l ≠ [] := by
  induction l with
  | nil => intro b hcon; exact List.noConfusion hcon
  | cons c rest ih =>
    intro b hcon
    rw [splitSW] at hcon
    by_cases h1 : (b && isWsChar c) = true
    · rw [if_pos h1] at hcon
      exact ih true hcon
    · rw [if_neg h1] at hcon
      by_cases h2 : c = ';'
      · rw [if_pos h2] at hcon
        exact List.noConfusion hcon
      · rw [if_neg h2] at hcon
        cases hs : splitSW false rest with
        | nil => exact ih false hs
        | cons s ss =>
          rw [hs, consHead_cons] at hcon
          exact List.noConfusion hcon

theorem splitSemiWs_headD (l : List Char) :
    (splitSemiWs l).headD [] = l.takeWhile (fun c => c ≠ ';') := by
  rw [splitSemiWs]
  induction l with
  | nil => rfl
  | cons c rest ih =>
    rw [splitSW, Bool.false_and, if_neg (by decide : ¬(false = true))]
    by_cases h2 : c = ';'
    · subst h2
      rw [if_pos rfl]
      simp [List.takeWhile_cons]
    · rw [if_neg h2, List.takeWhile_cons]
      have hd : decide (c ≠ ';') = true := by simp [h2]
      rw [hd, if_pos rfl]
      cases hs : splitSW false rest with
      | nil => exact absurd hs (splitSW_ne_nil rest false)
      | cons s ss =>
        rw [hs] at ih
        rw [consHead_cons]
        rw [List.headD_cons] at ih ⊢
        rw [ih]

theorem parse_singleton (p : List Char) (hne : p ≠ []) (hsemi : ';' ∉ p) :
    parse (String.mk p) = [pairOfSegment p] := by
  rw [parse, if_neg (strData_ne_nil _ (by rw [data_strMk]; exact hne)),
    data_strMk, splitSemiList_no_semi p hsemi, List.foldl_cons, List.foldl_nil]
  rw [if_neg (show ¬(hasKey [] (pairOfSegment p).1 = true) from
    fun hc => Bool.noConfusion hc)]
  rw [List.nil_append]

theorem count_one_split (l : List Char) (h : l.count '=' = 1) :
    ∃ a b, l = a ++ '=' :: b ∧ '=' ∉ a ∧ '=' ∉ b := by
  induction l with
  | nil => simp at h
  | cons c rest ih =>
    by_cases hc : c = '='
    · subst hc
      have hr : rest.count '=' = 0 := by
        rw [List.count_cons] at h
        simp at h
        omega
      exact ⟨[], rest, rfl, by simp, List.count_eq_zero.mp hr⟩
    · have h1 : rest.count '=' = 1 := by
        rw [List.count_cons] at h
        simp [hc] at h
        exact h
      obtain ⟨a, b, hab, ha, hb⟩ := ih h1
      refine ⟨c :: a, b, by rw [hab]; rfl, ?_, hb⟩
      simp only [List.mem_cons, not_or]
      exact ⟨fun hcon => hc hcon.symm, ha⟩

theorem flagStep_eq (res : Obj) (flag : String) :
    flagStep res flag =
      if canonKey flag = "maxAge" then
        objSet res "maxAge" (jsParseInt
          (match ((splitOnChar '=' flag.data).map String.mk).get? 1 with
           | some v => v
           | none => "undefined"))
      else
        objSet res (canonKey flag)
          (match ((splitOnChar '=' flag.data).map String.mk).get? 1 with
           | some v => JSVal.str v
           | none => JSVal.bool true) := rfl

theorem flagStep_lookup (res : Obj) (flag : String) (k : String)
    (hk : canonKey flag ≠ k) :
    objLookup (flagStep res flag) k = objLookup res k := by
  rw [flagStep_eq]
  by_cases hpn : canonKey flag = "maxAge"
  · rw [if_pos hpn, objLookup_objSet,
      if_neg (show ¬k = "maxAge" from fun hc => hk (by rw [hpn, hc]))]
  · rw [if_neg hpn, objLookup_objSet, if_neg (fun hc => hk hc.symm)]

theorem flags_fold_lookup (flags : List String) (k : String)
    (hk : ∀ f ∈ flags, canonKey f ≠ k) :
    ∀ res, objLookup (flags.foldl flagStep res) k = objLookup res k := by
  induction flags with
  | nil => intro res; rfl
  | cons f fs ih =>
    intro res
    rw [List.foldl_cons, ih (fun g hg => hk g (by simp [hg])),
      flagStep_lookup res f k (hk f (by simp))]

theorem cookieObjectsToCookieRecord_objs (os : List Obj) :
    cookieObjectsToCookieRecord (os.map .obj) =
      .ok (os.foldl (fun acc o =>
        objSet acc (jsToString ((objLookup o "name").getD .undef))
          ((objLookup o "value").getD .undef)) []) := by
  rw [cookieObjectsToCookieRecord, mapM_map_ok JSVal.obj _
    (fun o => (((objLookup o "name").getD JSVal.undef),
      ((objLookup o "value").getD JSVal.undef)))
    (fun o => rfl) os]
  show Except.ok ((os.map (fun o =>
      (((objLookup o "name").getD JSVal.undef),
        ((objLookup o "value").getD JSVal.undef)))).foldl
      (fun acc p => objSet acc (jsToString p.1) p.2) []) = _
  rw [List.foldl_map]

/-- For a good header, projecting name and value out of the parsed
Set-Cookie object and assigning them equals merging the parsed name-value
prefix record. -/
theorem header_step_eq (x : String) (hx : goodHeader x) (acc : Obj) :
    objSet acc (jsToString ((objLookup (parseSetCookieString x) "name").getD .undef))
        ((objLookup (parseSetCookieString x) "value").getD .undef) =
      recordMerge acc (cookieHeaderToCookieRecord (headerPrefix x)) := by
  obtain ⟨⟨hne, hcount⟩, hflags⟩ := hx
  have hsemi : ';' ∉ x.data.takeWhile (fun c => c ≠ ';') := by
    intro hmem
    have h1 := List.mem_takeWhile_imp hmem
    simp at h1
  have hck : cookieHeaderToCookieRecord (headerPrefix x) =
      [pairOfSegment (x.data.takeWhile (fun c => c ≠ ';'))] := by
    rw [headerPrefix, splitSemiList_headD, cookieHeaderToCookieRecord,
      parse_singleton _ hne hsemi]
  have hps : parseSetCookieString x =
      ((splitSemiWs x.data).map String.mk).tail.foldl flagStep
        [("name", .str (((splitOnChar '='
            (x.data.takeWhile (fun c => c ≠ ';'))).map String.mk).headD "")),
         ("value", match ((splitOnChar '='
            (x.data.takeWhile (fun c => c ≠ ';'))).map String.mk).get? 1 with
           | some v => JSVal.str v
           | none => JSVal.undef)] := by
    simp only [parseSetCookieString, headD_map_mk, splitSemiWs_headD, data_strMk]
  have hnamelookup := flags_fold_lookup (((splitSemiWs x.data).map String.mk).tail) "name"
    (fun f hf => (hflags f hf).1)
  have hvaluelookup := flags_fold_lookup (((splitSemiWs x.data).map String.mk).tail) "value"
    (fun f hf => (hflags f hf).2)
  have hlookupN : ∀ (A B : JSVal),
      objLookup [("name", A), ("value", B)] "name" = some A := fun A B => rfl
  have hlookupV : ∀ (A B : JSVal),
      objLookup [("name", A), ("value", B)] "value" = some B := fun A B => rfl
  have hcases : (x.data.takeWhile (fun c => c ≠ ';')).count '=' = 0 ∨
      (x.data.takeWhile (fun c => c ≠ ';')).count '=' = 1 := by omega
  rcases hcases with hc0 | hc1
  · have hnoeq : '=' ∉ x.data.takeWhile (fun c => c ≠ ';') := List.count_eq_zero.mp hc0
    rw [hps, hnamelookup, hvaluelookup, splitOnChar_no_sep '=' _ hnoeq]
    simp only [List.map_cons, List.map_nil, List.headD_cons]
    rw [hlookupN, hlookupV, hck, pairOfSegment_noEq _ hnoeq, recordMerge_single]
    rfl
  · obtain ⟨a, b, hab, ha, hb⟩ := count_one_split _ hc1
    rw [hps, hnamelookup, hvaluelookup, hab, splitOnChar_chain '=' a b ha,
      splitOnChar_no_sep '=' b hb]
    simp only [List.map_cons, List.map_nil, List.headD_cons]
    rw [hlookupN, hlookupV, hck, hab, pairOfSegment_split a b ha, recordMerge_single]
    rfl

/-! ## Claim C8 -/

/-- C8 counterexample: for the single header a=b=c the direct prefix
parse maps a to b=c, while the route through the object array maps a to
b, because the object parser keeps only the chunk between the first two
equals signs; the two conversions disagree. -/
theorem setCookieRecord_not_via_objects :
    setCookieHeadersToCookieRecord [.str "a=b=c"] = .ok [("a", .str "b=c")] ∧
    (setCookieHeadersToCookieObjects [.str "a=b=c"] [] >>= fun os =>
      cookieObjectsToCookieRecord (os.map .obj)) = .ok [("a", .str "b")] ∧
    (Except.ok [("a", JSVal.str "b=c")] : Except JSErr Obj) ≠ .ok [("a", .str "b")] :=
  ⟨rfl, rfl, by simp⟩

/-- C8 (amended): for every array of Set-Cookie headers whose name-value
prefixes are nonempty and hold at most one equals sign, and whose
attribute segments do not canonicalize to the name or value keys, the
set-cookie-array to record conversion equals the composition through the
object array. -/
theorem setCookieRecord_via_objects (hs : List String)
    (h : ∀ x ∈ hs, goodHeader x) :
    setCookieHeadersToCookieRecord (hs.map .str) =
      (setCookieHeadersToCookieObjects (hs.map .str) [] >>= fun os =>
        cookieObjectsToCookieRecord (os.map .obj)) := by
  rw [setCookieHeadersToCookieRecord_strings, setCookieHeadersToCookieObjects_strings]
  have hmm : hs.map (fun s => recordMerge (parseSetCookieString s) []) =
      hs.map parseSetCookieString := by
    apply List.map_congr_left
    intro x hx
    exact recordMerge_nil _
  rw [hmm]
  show _ = cookieObjectsToCookieRecord ((hs.map parseSetCookieString).map .obj)
  rw [cookieObjectsToCookieRecord_objs]
  congr 1
  rw [List.foldl_map, List.foldl_map]
  apply List.foldl_ext
  intro acc x hx
  exact (header_step_eq x (h x hx) acc).symm

/-- C8 witness: the two routes agree on two concrete well-formed
headers. -/
theorem setCookieRecord_via_objects_witness :
    setCookieHeadersToCookieRecord (["session=abc123; Path=/", "id=42"].map .str) =
      (setCookieHeadersToCookieObjects (["session=abc123; Path=/", "id=42"].map .str) []
        >>= fun os => cookieObjectsToCookieRecord (os.map .obj)) :=
  setCookieRecord_via_objects ["session=abc123; Path=/", "id=42"]
    (by intro x hx; simp at hx; rcases hx with hx | hx <;> subst hx <;> decide)

/-! ## Support for the object to Set-Cookie round trip -/

theorem strAppend_assoc (a b c : String) : (a ++ b) ++ c = a ++ (b ++ c) := by
  cases a with
  | mk l1 =>
    cases b with
    | mk l2 =>
      cases c with
      | mk l3 => exact congrArg String.mk (List.append_assoc l1 l2 l3)

@[simp] theorem optOr_none_right (x : Option JSVal) : optOr x none = x := by
  cases x <;> rfl

theorem objSet_fresh (o : Obj) (k : String) (v : JSVal) (h : hasKey o k = false) :
    objSet o k v = o ++ [(k, v)] := by
  rw [objSet, if_neg (fun hc => Bool.noConfusion (h ▸ hc))]

theorem hasKey_optField (key : String) (x : Option JSVal) (k : String) :
    hasKey (optField key x) k = (x.isSome && (key == k)) := by
  cases x <;> simp [optField, hasKey]

theorem objLookup_optField_self (key : String) (x : Option JSVal) :
    objLookup (optField key x) key = x := by
  cases x <;> simp [optField, objLookup_cons]

theorem objLookup_optField_ne (key : String) (x : Option JSVal) (k : String)
    (h : ¬key = k) :
    objLookup (optField key x) k = none := by
  cases x <;> simp [optField, objLookup_cons, h]

theorem objErase_append (a b : Obj) (k : String) :
    objErase (a ++ b) k = objErase a k ++ objErase b k := by
  rw [objErase, objErase, objErase, List.filter_append]

theorem objErase_cons_eq (p : String × JSVal) (l : Obj) (k : String) (h : p.1 = k) :
    objErase (p :: l) k = objErase l k := by
  rw [objErase, List.filter_cons,
    if_neg (show ¬(decide (p.1 ≠ k) = true) from by simp [h])]
  rfl

theorem objErase_cons_ne (p : String × JSVal) (l : Obj) (k : String) (h : ¬p.1 = k) :
    objErase (p :: l) k = p :: objErase l k := by
  rw [objErase, List.filter_cons,
    if_pos (show (decide (p.1 ≠ k) = true) from by simp [h])]
  rfl

theorem objErase_optField_ne (key : String) (x : Option JSVal) (k : String)
    (h : ¬key = k) :
    objErase (optField key x) k = optField key x := by
  cases x with
  | none => rfl
  | some w => rw [optField, objErase_cons_ne _ _ _ h]; rfl

theorem segsConcat_append (l1 l2 : List String) :
    segsConcat (l1 ++ l2) = segsConcat l1 ++ segsConcat l2 := by
  induction l1 with
  | nil =>
    rw [List.nil_append]
    cases hs : segsConcat l2 with
    | mk l => rfl
  | cons s ss ih =>
    rw [List.cons_append, segsConcat, segsConcat, ih]
    simp [strAppend_assoc]

theorem extras_optField_known (key : String) (x : Option JSVal)
    (h : knownOptionKeys.contains key = true) :
    (optField key x).filter (fun p => !(knownOptionKeys.contains p.1)) = [] := by
  cases x with
  | none => rfl
  | some w =>
    simp [optField]
    exact (by simpa using h)

theorem mkCookieObject_eq (n v : String) (dom pth exp : Option String) (mag : Option Int)
    (hto sec : Option Bool) (sam : Option String) :
    mkCookieObject n v dom pth exp mag hto sec sam =
      ("name", JSVal.str n) :: ("value", JSVal.str v) ::
        (optField "domain" (dom.map .str) ++
          (optField "path" (pth.map .str) ++
            (optField "expires" (exp.map .str) ++
              (optField "maxAge" (mag.map .num) ++
                (optField "httpOnly" (hto.map .bool) ++
                  (optField "secure" (sec.map .bool) ++
                    optField "sameSite" (sam.map .str))))))) := by
  simp [mkCookieObject, List.append_assoc]

/-- The serializer output when the options carry no unrecognized key:
the base pair followed by the seven attribute pieces. -/
theorem serialize_no_extras (name : String) (value : JSVal) (options : Obj)
    (h8 : options.filter (fun p => !(knownOptionKeys.contains p.1)) = []) :
    serialize name value options =
      name ++ "=" ++ jsToString value ++
      (match objLookup options "domain" with
       | some v => if jsTruthy v then "; Domain=" ++ jsToString v else ""
       | none => "") ++
      (match objLookup options "path" with
       | some v => if jsTruthy v then "; Path=" ++ jsToString v else ""
       | none => "") ++
      (match objLookup options "expires" with
       | some v =>
         if jsTruthy v then
           "; Expires=" ++ (match v with | .date r => fmtDateRaw r | w => fmtDateRaw w)
         else ""
       | none => "") ++
      (match objLookup options "maxAge" with
       | some .undef => ""
       | some .null => ""
       | some v => "; Max-Age=" ++ jsToString v
       | none => "") ++
      (match objLookup options "httpOnly" with
       | some v => if jsTruthy v then "; HttpOnly" else ""
       | none => "") ++
      (match objLookup options "secure" with
       | some v => if jsTruthy v then "; Secure" else ""
       | none => "") ++
      (match objLookup options "sameSite" with
       | some v => if jsTruthy v then "; SameSite=" ++ jsToString v else ""
       | none => "") := by
  unfold serialize
  rw [h8]
  simp only [List.foldl_nil]
  exact strAppend_empty _

theorem optStep_not_undef (acc : Obj) (k : String) (w : JSVal) (hw : ¬w = JSVal.undef) :
    optStep acc (k, w) =
      (if k = "expires" then objSet acc "expires" (.date w)
       else if k = "maxAge" then objSet acc "maxAge" w
       else objSet acc k w) := by
  cases w <;> first | exact absurd rfl hw | rfl

theorem foldl_optStep_plain (acc : Obj) (k : String) (x : Option JSVal)
    (hke : ¬k = "expires") (hkm : ¬k = "maxAge")
    (hund : ¬x = some JSVal.undef) (hfresh : hasKey acc k = false) :
    (optField k x).foldl optStep acc = acc ++ optField k x := by
  cases x with
  | none => simp [optField]
  | some w =>
    rw [show optField k (some w) = [(k, w)] from rfl, List.foldl_cons, List.foldl_nil,
      optStep_not_undef acc k w (fun hc => hund (by rw [hc])), if_neg hke, if_neg hkm,
      objSet_fresh acc k w hfresh]

theorem foldl_optStep_expires (acc : Obj) (x : Option JSVal)
    (hund : ¬x = some JSVal.undef) (hfresh : hasKey acc "expires" = false) :
    (optField "expires" x).foldl optStep acc =
      acc ++ optField "expires" (x.map JSVal.date) := by
  cases x with
  | none => simp [optField]
  | some w =>
    rw [show optField "expires" (some w) = [("expires", w)] from rfl, List.foldl_cons,
      List.foldl_nil, optStep_not_undef acc "expires" w (fun hc => hund (by rw [hc])),
      if_pos rfl, objSet_fresh acc "expires" (JSVal.date w) hfresh]
    rfl

theorem foldl_optStep_maxAge (acc : Obj) (x : Option JSVal)
    (hund : ¬x = some JSVal.undef) (hfresh : hasKey acc "maxAge" = false) :
    (optField "maxAge" x).foldl optStep acc = acc ++ optField "maxAge" x := by
  cases x with
  | none => simp [optField]
  | some w =>
    rw [show optField "maxAge" (some w) = [("maxAge", w)] from rfl, List.foldl_cons,
      List.foldl_nil, optStep_not_undef acc "maxAge" w (fun hc => hund (by rw [hc])),
      if_neg (show ¬("maxAge" : String) = "expires" from by decide), if_pos rfl,
      objSet_fresh acc "maxAge" w hfresh]

theorem map_str_ne_undef (x : Option String) : ¬x.map JSVal.str = some JSVal.undef := by
  cases x <;> simp

theorem map_num_ne_undef (x : Option Int) : ¬x.map JSVal.num = some JSVal.undef := by
  cases x <;> simp

theorem map_bool_ne_undef (x : Option Bool) : ¬x.map JSVal.bool = some JSVal.undef := by
  cases x <;> simp

theorem map_date_ne_undef (x : Option JSVal) : ¬x.map JSVal.date = some JSVal.undef := by
  cases x <;> simp

theorem hasKey_optField_false (key : String) (x : Option JSVal) (k : String)
    (h : (key == k) = false) : hasKey (optField key x) k = false := by
  rw [hasKey_optField, h, Bool.and_false]

theorem hasKey_append_ff (a b : Obj) (k : String) (ha : hasKey a k = false)
    (hb : hasKey b k = false) : hasKey (a ++ b) k = false := by
  rw [hasKey_append, ha, hb]
  rfl

/-- Building the serialization options from the rest fields of a canonical
cookie object wraps the expires string in a Date and passes every other
field through. -/
theorem optionsOfRest_restPieces (dom pth exp : Option String) (mag : Option Int)
    (hto sec : Option Bool) (sam : Option String) :
    optionsOfRest (restPieces dom pth exp mag hto sec sam) =
      optPieces dom pth exp mag hto sec sam := by
  have e1 : List.foldl optStep [] (optField "domain" (Option.map JSVal.str dom)) =
      optField "domain" (Option.map JSVal.str dom) := by
    rw [foldl_optStep_plain [] "domain" _ (by decide) (by decide) (map_str_ne_undef dom) rfl,
      List.nil_append]
  have e2 : List.foldl optStep (optField "domain" (Option.map JSVal.str dom))
      (optField "path" (Option.map JSVal.str pth)) =
      optField "domain" (Option.map JSVal.str dom) ++
        optField "path" (Option.map JSVal.str pth) :=
    foldl_optStep_plain _ "path" _ (by decide) (by decide) (map_str_ne_undef pth)
      (hasKey_optField_false _ _ _ (by decide))
  have e3 : List.foldl optStep
      (optField "domain" (Option.map JSVal.str dom) ++
        optField "path" (Option.map JSVal.str pth))
      (optField "expires" (Option.map JSVal.str exp)) =
      (optField "domain" (Option.map JSVal.str dom) ++
        optField "path" (Option.map JSVal.str pth)) ++
        optField "expires" (Option.map JSVal.date (Option.map JSVal.str exp)) :=
    foldl_optStep_expires _ _ (map_str_ne_undef exp)
      (hasKey_append_ff _ _ _ (hasKey_optField_false _ _ _ (by decide))
        (hasKey_optField_false _ _ _ (by decide)))
  have e4 : List.foldl optStep
      ((optField "domain" (Option.map JSVal.str dom) ++
        optField "path" (Option.map JSVal.str pth)) ++
        optField "expires" (Option.map JSVal.date (Option.map JSVal.str exp)))
      (optField "maxAge" (Option.map JSVal.num mag)) =
      ((optField "domain" (Option.map JSVal.str dom) ++
        optField "path" (Option.map JSVal.str pth)) ++
        optField "expires" (Option.map JSVal.date (Option.map JSVal.str exp))) ++
        optField "maxAge" (Option.map JSVal.num mag) :=
    foldl_optStep_maxAge _ _ (map_num_ne_undef mag)
      (hasKey_append_ff _ _ _
        (hasKey_append_ff _ _ _ (hasKey_optField_false _ _ _ (by decide))
          (hasKey_optField_false _ _ _ (by decide)))
        (hasKey_optField_false _ _ _ (by decide)))
  have e5 : List.foldl optStep
      (((optField "domain" (Option.map JSVal.str dom) ++
        optField "path" (Option.map JSVal.str pth)) ++
        optField "expires" (Option.map JSVal.date (Option.map JSVal.str exp))) ++
        optField "maxAge" (Option.map JSVal.num mag))
      (optField "httpOnly" (Option.map JSVal.bool hto)) =
      (((optField "domain" (Option.map JSVal.str dom) ++
        optField "path" (Option.map JSVal.str pth)) ++
        optField "expires" (Option.map JSVal.date (Option.map JSVal.str exp))) ++
        optField "maxAge" (Option.map JSVal.num mag)) ++
        optField "httpOnly" (Option.map JSVal.bool hto) :=
    foldl_optStep_plain _ "httpOnly" _ (by decide) (by decide) (map_bool_ne_undef hto)
      (hasKey_append_ff _ _ _
        (hasKey_append_ff _ _ _
          (hasKey_append_ff _ _ _ (hasKey_optField_false _ _ _ (by decide))
            (hasKey_optField_false _ _ _ (by decide)))
          (hasKey_optField_false _ _ _ (by decide)))
        (hasKey_optField_false _ _ _ (by decide)))
  have e6 : List.foldl optStep
      ((((optField "domain" (Option.map JSVal.str dom) ++
        optField "path" (Option.map JSVal.str pth)) ++
        optField "expires" (Option.map JSVal.date (Option.map JSVal.str exp))) ++
        optField "maxAge" (Option.map JSVal.num mag)) ++
        optField "httpOnly" (Option.map JSVal.bool hto))
      (optField "secure" (Option.map JSVal.bool sec)) =
      ((((optField "domain" (Option.map JSVal.str dom) ++
        optField "path" (Option.map JSVal.str pth)) ++
        optField "expires" (Option.map JSVal.date (Option.map JSVal.str exp))) ++
        optField "maxAge" (Option.map JSVal.num mag)) ++
        optField "httpOnly" (Option.map JSVal.bool hto)) ++
        optField "secure" (Option.map JSVal.bool sec) :=
    foldl_optStep_plain _ "secure" _ (by decide) (by decide) (map_bool_ne_undef sec)
      (hasKey_append_ff _ _ _
        (hasKey_append_ff _ _ _
          (hasKey_append_ff _ _ _
            (hasKey_append_ff _ _ _ (hasKey_optField_false _ _ _ (by decide))
              (hasKey_optField_false _ _ _ (by decide)))
            (hasKey_optField_false _ _ _ (by decide)))
          (hasKey_optField_false _ _ _ (by decide)))
        (hasKey_optField_false _ _ _ (by decide)))
  have e7 : List.foldl optStep
      (((((optField "domain" (Option.map JSVal.str dom) ++
        optField "path" (Option.map JSVal.str pth)) ++
        optField "expires" (Option.map JSVal.date (Option.map JSVal.str exp))) ++
        optField "maxAge" (Option.map JSVal.num mag)) ++
        optField "httpOnly" (Option.map JSVal.bool hto)) ++
        optField "secure" (Option.map JSVal.bool sec))
      (optField "sameSite" (Option.map JSVal.str sam)) =
      (((((optField "domain" (Option.map JSVal.str dom) ++
        optField "path" (Option.map JSVal.str pth)) ++
        optField "expires" (Option.map JSVal.date (Option.map JSVal.str exp))) ++
        optField "maxAge" (Option.map JSVal.num mag)) ++
        optField "httpOnly" (Option.map JSVal.bool hto)) ++
        optField "secure" (Option.map JSVal.bool sec)) ++
        optField "sameSite" (Option.map JSVal.str sam) :=
    foldl_optStep_plain _ "sameSite" _ (by decide) (by decide) (map_str_ne_undef sam)
      (hasKey_append_ff _ _ _
        (hasKey_append_ff _ _ _
          (hasKey_append_ff _ _ _
            (hasKey_append_ff _ _ _
              (hasKey_append_ff _ _ _ (hasKey_optField_false _ _ _ (by decide))
                (hasKey_optField_false _ _ _ (by decide)))
              (hasKey_optField_false _ _ _ (by decide)))
            (hasKey_optField_false _ _ _ (by decide)))
          (hasKey_optField_false _ _ _ (by decide)))
        (hasKey_optField_false _ _ _ (by decide)))
  rw [optionsOfRest, restPieces]
  simp only [List.foldl_append]
  rw [e1, e2, e3, e4, e5, e6, e7]
  rfl

theorem optPieces_lookup_domain (dom pth exp : Option String) (mag : Option Int)
    (hto sec : Option Bool) (sam : Option String) :
    objLookup (optPieces dom pth exp mag hto sec sam) "domain" =
      Option.map JSVal.str dom := by
  rw [optPieces]
  simp only [objLookup_append]
  rw [objLookup_optField_self,
    objLookup_optField_ne _ _ _ (show ¬("path" : String) = "domain" from by decide),
    objLookup_optField_ne _ _ _ (show ¬("expires" : String) = "domain" from by decide),
    objLookup_optField_ne _ _ _ (show ¬("maxAge" : String) = "domain" from by decide),
    objLookup_optField_ne _ _ _ (show ¬("httpOnly" : String) = "domain" from by decide),
    objLookup_optField_ne _ _ _ (show ¬("secure" : String) = "domain" from by decide),
    objLookup_optField_ne _ _ _ (show ¬("sameSite" : String) = "domain" from by decide)]
  simp

theorem optPieces_lookup_path (dom pth exp : Option String) (mag : Option Int)
    (hto sec : Option Bool) (sam : Option String) :
    objLookup (optPieces dom pth exp mag hto sec sam) "path" =
      Option.map JSVal.str pth := by
  rw [optPieces]
  simp only [objLookup_append]
  rw [objLookup_optField_self,
    objLookup_optField_ne _ _ _ (show ¬("domain" : String) = "path" from by decide),
    objLookup_optField_ne _ _ _ (show ¬("expires" : String) = "path" from by decide),
    objLookup_optField_ne _ _ _ (show ¬("maxAge" : String) = "path" from by decide),
    objLookup_optField_ne _ _ _ (show ¬("httpOnly" : String) = "path" from by decide),
    objLookup_optField_ne _ _ _ (show ¬("secure" : String) = "path" from by decide),
    objLookup_optField_ne _ _ _ (show ¬("sameSite" : String) = "path" from by decide)]
  simp

theorem optPieces_lookup_expires (dom pth exp : Option String) (mag : Option Int)
    (hto sec : Option Bool) (sam : Option String) :
    objLookup (optPieces dom pth exp mag hto sec sam) "expires" =
      Option.map JSVal.date (Option.map JSVal.str exp) := by
  rw [optPieces]
  simp only [objLookup_append]
  rw [objLookup_optField_self,
    objLookup_optField_ne _ _ _ (show ¬("domain" : String) = "expires" from by decide),
    objLookup_optField_ne _ _ _ (show ¬("path" : String) = "expires" from by decide),
    objLookup_optField_ne _ _ _ (show ¬("maxAge" : String) = "expires" from by decide),
    objLookup_optField_ne _ _ _ (show ¬("httpOnly" : String) = "expires" from by decide),
    objLookup_optField_ne _ _ _ (show ¬("secure" : String) = "expires" from by decide),
    objLookup_optField_ne _ _ _ (show ¬("sameSite" : String) = "expires" from by decide)]
  simp

theorem optPieces_lookup_maxAge (dom pth exp : Option String) (mag : Option Int)
    (hto sec : Option Bool) (sam : Option String) :
    objLookup (optPieces dom pth exp mag hto sec sam) "maxAge" =
      Option.map JSVal.num mag := by
  rw [optPieces]
  simp only [objLookup_append]
  rw [objLookup_optField_self,
    objLookup_optField_ne _ _ _ (show ¬("domain" : String) = "maxAge" from by decide),
    objLookup_optField_ne _ _ _ (show ¬("path" : String) = "maxAge" from by decide),
    objLookup_optField_ne _ _ _ (show ¬("expires" : String) = "maxAge" from by decide),
    objLookup_optField_ne _ _ _ (show ¬("httpOnly" : String) = "maxAge" from by decide),
    objLookup_optField_ne _ _ _ (show ¬("secure" : String) = "maxAge" from by decide),
    objLookup_optField_ne _ _ _ (show ¬("sameSite" : String) = "maxAge" from by decide)]
  simp

theorem optPieces_lookup_httpOnly (dom pth exp : Option String) (mag : Option Int)
    (hto sec : Option Bool) (sam : Option String) :
    objLookup (optPieces dom pth exp mag hto sec sam) "httpOnly" =
      Option.map JSVal.bool hto := by
  rw [optPieces]
  simp only [objLookup_append]
  rw [objLookup_optField_self,
    objLookup_optField_ne _ _ _ (show ¬("domain" : String) = "httpOnly" from by decide),
    objLookup_optField_ne _ _ _ (show ¬("path" : String) = "httpOnly" from by decide),
    objLookup_optField_ne _ _ _ (show ¬("expires" : String) = "httpOnly" from by decide),
    objLookup_optField_ne _ _ _ (show ¬("maxAge" : String) = "httpOnly" from by decide),
    objLookup_optField_ne _ _ _ (show ¬("secure" : String) = "httpOnly" from by decide),
    objLookup_optField_ne _ _ _ (show ¬("sameSite" : String) = "httpOnly" from by decide)]
  simp

theorem optPieces_lookup_secure (dom pth exp : Option String) (mag : Option Int)
    (hto sec : Option Bool) (sam : Option String) :
    objLookup (optPieces dom pth exp mag hto sec sam) "secure" =
      Option.map JSVal.bool sec := by
  rw [optPieces]
  simp only [objLookup_append]
  rw [objLookup_optField_self,
    objLookup_optField_ne _ _ _ (show ¬("domain" : String) = "secure" from by decide),
    objLookup_optField_ne _ _ _ (show ¬("path" : String) = "secure" from by decide),
    objLookup_optField_ne _ _ _ (show ¬("expires" : String) = "secure" from by decide),
    objLookup_optField_ne _ _ _ (show ¬("maxAge" : String) = "secure" from by decide),
    objLookup_optField_ne _ _ _ (show ¬("httpOnly" : String) = "secure" from by decide),
    objLookup_optField_ne _ _ _ (show ¬("sameSite" : String) = "secure" from by decide)]
  simp

theorem optPieces_lookup_sameSite (dom pth exp : Option String) (mag : Option Int)
    (hto sec : Option Bool) (sam : Option String) :
    objLookup (optPieces dom pth exp mag hto sec sam) "sameSite" =
      Option.map JSVal.str sam := by
  rw [optPieces]
  simp only [objLookup_append]
  rw [objLookup_optField_self,
    objLookup_optField_ne _ _ _ (show ¬("domain" : String) = "sameSite" from by decide),
    objLookup_optField_ne _ _ _ (show ¬("path" : String) = "sameSite" from by decide),
    objLookup_optField_ne _ _ _ (show ¬("expires" : String) = "sameSite" from by decide),
    objLookup_optField_ne _ _ _ (show ¬("maxAge" : String) = "sameSite" from by decide),
    objLookup_optField_ne _ _ _ (show ¬("httpOnly" : String) = "sameSite" from by decide),
    objLookup_optField_ne _ _ _ (show ¬("secure" : String) = "sameSite" from by decide)]
  simp

theorem optPieces_no_extras (dom pth exp : Option String) (mag : Option Int)
    (hto sec : Option Bool) (sam : Option String) :
    (optPieces dom pth exp mag hto sec sam).filter
      (fun p => !(knownOptionKeys.contains p.1)) = [] := by
  rw [optPieces]
  simp only [List.filter_append]
  rw [extras_optField_known _ _ (by decide), extras_optField_known _ _ (by decide),
    extras_optField_known _ _ (by decide), extras_optField_known _ _ (by decide),
    extras_optField_known _ _ (by decide), extras_optField_known _ _ (by decide),
    extras_optField_known _ _ (by decide)]
  rfl

theorem domPiece (dom : Option String) (hd : ¬dom = some "") :
    (match Option.map JSVal.str dom with
     | some v => if jsTruthy v then "; Domain=" ++ jsToString v else ""
     | none => "") =
      segsConcat ((dom.map (fun d => "Domain=" ++ d)).toList) := by
  cases dom with
  | none => rfl
  | some d =>
    have hdne : ¬d = "" := fun hc => hd (by rw [hc])
    show (if jsTruthy (.str d) then "; Domain=" ++ jsToString (.str d) else "") = _
    rw [if_pos (show jsTruthy (.str d) = true from by simp [jsTruthy, hdne])]
    show "; Domain=" ++ d = ("; " ++ ("Domain=" ++ d)) ++ ""
    rw [strAppend_empty, ← strAppend_assoc,
      show ("; " ++ "Domain=" : String) = "; Domain=" from rfl]

theorem pathPiece (pth : Option String) (hp : ¬pth = some "") :
    (match Option.map JSVal.str pth with
     | some v => if jsTruthy v then "; Path=" ++ jsToString v else ""
     | none => "") =
      segsConcat ((pth.map (fun p => "Path=" ++ p)).toList) := by
  cases pth with
  | none => rfl
  | some d =>
    have hdne : ¬d = "" := fun hc => hp (by rw [hc])
    show (if jsTruthy (.str d) then "; Path=" ++ jsToString (.str d) else "") = _
    rw [if_pos (show jsTruthy (.str d) = true from by simp [jsTruthy, hdne])]
    show "; Path=" ++ d = ("; " ++ ("Path=" ++ d)) ++ ""
    rw [strAppend_empty, ← strAppend_assoc,
      show ("; " ++ "Path=" : String) = "; Path=" from rfl]

theorem samPiece (sam : Option String) (hs : ¬sam = some "") :
    (match Option.map JSVal.str sam with
     | some v => if jsTruthy v then "; SameSite=" ++ jsToString v else ""
     | none => "") =
      segsConcat ((sam.map (fun s => "SameSite=" ++ s)).toList) := by
  cases sam with
  | none => rfl
  | some d =>
    have hdne : ¬d = "" := fun hc => hs (by rw [hc])
    show (if jsTruthy (.str d) then "; SameSite=" ++ jsToString (.str d) else "") = _
    rw [if_pos (show jsTruthy (.str d) = true from by simp [jsTruthy, hdne])]
    show "; SameSite=" ++ d = ("; " ++ ("SameSite=" ++ d)) ++ ""
    rw [strAppend_empty, ← strAppend_assoc,
      show ("; " ++ "SameSite=" : String) = "; SameSite=" from rfl]

theorem expPiece (exp : Option String) :
    (match Option.map JSVal.date (Option.map JSVal.str exp) with
     | some v =>
       if jsTruthy v then
         "; Expires=" ++ (match v with | .date r => fmtDateRaw r | w => fmtDateRaw w)
       else ""
     | none => "") =
      segsConcat ((exp.map (fun e => "Expires=" ++ e)).toList) := by
  cases exp with
  | none => rfl
  | some e =>
    show (if jsTruthy (.date (.str e)) then
        "; Expires=" ++ fmtDateRaw (.str e) else "") = _
    rw [if_pos (show jsTruthy (.date (.str e)) = true from rfl)]
    show "; Expires=" ++ e = ("; " ++ ("Expires=" ++ e)) ++ ""
    rw [strAppend_empty, ← strAppend_assoc,
      show ("; " ++ "Expires=" : String) = "; Expires=" from rfl]

theorem magPiece (mag : Option Int) :
    (match Option.map JSVal.num mag with
     | some .undef => ""
     | some .null => ""
     | some v => "; Max-Age=" ++ jsToString v
     | none => "") =
      segsConcat ((mag.map (fun m => "Max-Age=" ++ intRepr m)).toList) := by
  cases mag with
  | none => rfl
  | some m =>
    show "; Max-Age=" ++ jsToString (.num m) = _
    show "; Max-Age=" ++ intRepr m = ("; " ++ ("Max-Age=" ++ intRepr m)) ++ ""
    rw [strAppend_empty, ← strAppend_assoc,
      show ("; " ++ "Max-Age=" : String) = "; Max-Age=" from rfl]

theorem htoPiece (hto : Option Bool) :
    (match Option.map JSVal.bool hto with
     | some v => if jsTruthy v then "; HttpOnly" else ""
     | none => "") =
      segsConcat (htoSeg hto) := by
  cases hto with
  | none => rfl
  | some b =>
    cases b with
    | true =>
      show (if jsTruthy (.bool true) then "; HttpOnly" else "") = _
      rw [if_pos (show jsTruthy (.bool true) = true from rfl)]
      show ("; HttpOnly" : String) = ("; " ++ "HttpOnly") ++ ""
      rw [strAppend_empty, show ("; " ++ "HttpOnly" : String) = "; HttpOnly" from rfl]
    | false => rfl

theorem secPiece (sec : Option Bool) :
    (match Option.map JSVal.bool sec with
     | some v => if jsTruthy v then "; Secure" else ""
     | none => "") =
      segsConcat (secSeg sec) := by
  cases sec with
  | none => rfl
  | some b =>
    cases b with
    | true =>
      show (if jsTruthy (.bool true) then "; Secure" else "") = _
      rw [if_pos (show jsTruthy (.bool true) = true from rfl)]
      show ("; Secure" : String) = ("; " ++ "Secure") ++ ""
      rw [strAppend_empty, show ("; " ++ "Secure" : String) = "; Secure" from rfl]
    | false => rfl

theorem restPieces_erase (dom pth exp : Option String) (mag : Option Int)
    (hto sec : Option Bool) (sam : Option String) (k : String)
    (h1 : ¬("domain" : String) = k) (h2 : ¬("path" : String) = k)
    (h3 : ¬("expires" : String) = k) (h4 : ¬("maxAge" : String) = k)
    (h5 : ¬("httpOnly" : String) = k) (h6 : ¬("secure" : String) = k)
    (h7 : ¬("sameSite" : String) = k) :
    objErase (restPieces dom pth exp mag hto sec sam) k =
      restPieces dom pth exp mag hto sec sam := by
  rw [restPieces, objErase_append, objErase_append, objErase_append, objErase_append,
    objErase_append, objErase_append,
    objErase_optField_ne _ _ _ h1, objErase_optField_ne _ _ _ h2,
    objErase_optField_ne _ _ _ h3, objErase_optField_ne _ _ _ h4,
    objErase_optField_ne _ _ _ h5, objErase_optField_ne _ _ _ h6,
    objErase_optField_ne _ _ _ h7]

/-- One cookie object through the serializer pipeline: the output list
holds the serialized merged record. -/
theorem cookieObjectsToSetCookieHeaders_singleton (o : JSVal) (attrs : Obj) :
    cookieObjectsToSetCookieHeaders [o] attrs =
      [serialize
        (jsToString ((objLookup (recordMerge (spreadFields o) attrs) "name").getD .undef))
        ((objLookup (recordMerge (spreadFields o) attrs) "value").getD .undef)
        (optionsOfRest
          (objErase (objErase (recordMerge (spreadFields o) attrs) "name") "value"))] :=
  rfl

/-- The serializer output for one canonical cookie object with no extra
attributes: the name-value pair followed by the attribute segments in
declared-field order. -/
theorem serialize_mkCookieObject (n v : String) (dom pth exp : Option String)
    (mag : Option Int) (hto sec : Option Bool) (sam : Option String)
    (hdom : ¬dom = some "") (hpth : ¬pth = some "") (hsam : ¬sam = some "") :
    cookieObjectsToSetCookieHeaders
        [.obj (mkCookieObject n v dom pth exp mag hto sec sam)] [] =
      [(n ++ "=" ++ v) ++ segsConcat (segPieces dom pth exp mag hto sec sam)] := by
  have hrest : objErase (objErase
      (recordMerge (spreadFields (.obj (mkCookieObject n v dom pth exp mag hto sec sam)))
        []) "name") "value" = restPieces dom pth exp mag hto sec sam := by
    rw [show recordMerge
        (spreadFields (.obj (mkCookieObject n v dom pth exp mag hto sec sam))) [] =
        ("name", JSVal.str n) :: ("value", JSVal.str v) ::
          restPieces dom pth exp mag hto sec sam from rfl]
    rw [objErase_cons_eq ("name", JSVal.str n) _ "name" rfl,
      objErase_cons_ne ("value", JSVal.str v) _ "name"
        (show ¬("value" : String) = "name" from by decide),
      restPieces_erase dom pth exp mag hto sec sam "name" (by decide) (by decide)
        (by decide) (by decide) (by decide) (by decide) (by decide),
      objErase_cons_eq ("value", JSVal.str v) _ "value" rfl,
      restPieces_erase dom pth exp mag hto sec sam "value" (by decide) (by decide)
        (by decide) (by decide) (by decide) (by decide) (by decide)]
  rw [cookieObjectsToSetCookieHeaders_singleton, hrest, optionsOfRest_restPieces]
  rw [serialize_no_extras _ _ _ (optPieces_no_extras dom pth exp mag hto sec sam)]
  rw [optPieces_lookup_domain, optPieces_lookup_path, optPieces_lookup_expires,
    optPieces_lookup_maxAge, optPieces_lookup_httpOnly, optPieces_lookup_secure,
    optPieces_lookup_sameSite]
  rw [domPiece dom hdom, pathPiece pth hpth, expPiece exp, magPiece mag, htoPiece hto,
    secPiece sec, samPiece sam hsam]
  rw [show jsToString ((objLookup
      (recordMerge (spreadFields (.obj (mkCookieObject n v dom pth exp mag hto sec sam)))
        []) "name").getD .undef) = n from rfl]
  rw [show ((objLookup
      (recordMerge (spreadFields (.obj (mkCookieObject n v dom pth exp mag hto sec sam)))
        []) "value").getD .undef) = JSVal.str v from rfl]
  rw [jsToString_str]
  simp [segPieces, segsConcat_append, strAppend_assoc]

theorem intRepr_no_char (m : Int) (c : Char) (hc : isDigitChar c = false)
    (hneg : ¬c = '-') : c ∉ (intRepr m).data := by
  cases m with
  | ofNat nn =>
    intro hmem
    have hdig := natRepr_digits nn c hmem
    rw [hc] at hdig
    exact Bool.noConfusion hdig
  | negSucc nn =>
    intro hmem
    have hmem2 : c ∈ '-' :: (natRepr (nn + 1)).data := hmem
    rcases List.mem_cons.mp hmem2 with h | h
    · exact hneg h
    · have hdig := natRepr_digits (nn + 1) c h
      rw [hc] at hdig
      exact Bool.noConfusion hdig

theorem intRepr_no_eq (m : Int) : '=' ∉ (intRepr m).data :=
  intRepr_no_char m '=' (by decide) (by decide)

theorem intRepr_no_semi (m : Int) : ';' ∉ (intRepr m).data :=
  intRepr_no_char m ';' (by decide) (by decide)

theorem flagStep_wireDomain (acc : Obj) (d : String) (hd : '=' ∉ d.data) :
    flagStep acc ("Domain=" ++ d) = objSet acc "domain" (.str d) := by
  have hsplit : splitOnChar '=' ("Domain=" ++ d).data = ["Domain".data, d.data] := by
    rw [show ("Domain=" ++ d).data = "Domain".data ++ '=' :: d.data from rfl,
      splitOnChar_chain '=' _ _ (by decide), splitOnChar_no_sep '=' _ hd]
  have hck : canonKey ("Domain=" ++ d) = "domain" := by
    simp only [canonKey, hsplit]
    rfl
  have hval : ((splitOnChar '=' ("Domain=" ++ d).data).map String.mk).get? 1 = some d := by
    rw [hsplit]
    rfl
  rw [flagStep_eq, hck, hval, if_neg (show ¬("domain" : String) = "maxAge" from by decide)]

theorem flagStep_wirePath (acc : Obj) (d : String) (hd : '=' ∉ d.data) :
    flagStep acc ("Path=" ++ d) = objSet acc "path" (.str d) := by
  have hsplit : splitOnChar '=' ("Path=" ++ d).data = ["Path".data, d.data] := by
    rw [show ("Path=" ++ d).data = "Path".data ++ '=' :: d.data from rfl,
      splitOnChar_chain '=' _ _ (by decide), splitOnChar_no_sep '=' _ hd]
  have hck : canonKey ("Path=" ++ d) = "path" := by
    simp only [canonKey, hsplit]
    rfl
  have hval : ((splitOnChar '=' ("Path=" ++ d).data).map String.mk).get? 1 = some d := by
    rw [hsplit]
    rfl
  rw [flagStep_eq, hck, hval, if_neg (show ¬("path" : String) = "maxAge" from by decide)]

theorem flagStep_wireExpires (acc : Obj) (d : String) (hd : '=' ∉ d.data) :
    flagStep acc ("Expires=" ++ d) = objSet acc "expires" (.str d) := by
  have hsplit : splitOnChar '=' ("Expires=" ++ d).data = ["Expires".data, d.data] := by
    rw [show ("Expires=" ++ d).data = "Expires".data ++ '=' :: d.data from rfl,
      splitOnChar_chain '=' _ _ (by decide), splitOnChar_no_sep '=' _ hd]
  have hck : canonKey ("Expires=" ++ d) = "expires" := by
    simp only [canonKey, hsplit]
    rfl
  have hval : ((splitOnChar '=' ("Expires=" ++ d).data).map String.mk).get? 1 = some d := by
    rw [hsplit]
    rfl
  rw [flagStep_eq, hck, hval,
    if_neg (show ¬("expires" : String) = "maxAge" from by decide)]

theorem flagStep_wireSameSite (acc : Obj) (d : String) (hd : '=' ∉ d.data) :
    flagStep acc ("SameSite=" ++ d) = objSet acc "sameSite" (.str d) := by
  have hsplit : splitOnChar '=' ("SameSite=" ++ d).data = ["SameSite".data, d.data] := by
    rw [show ("SameSite=" ++ d).data = "SameSite".data ++ '=' :: d.data from rfl,
      splitOnChar_chain '=' _ _ (by decide), splitOnChar_no_sep '=' _ hd]
  have hck : canonKey ("SameSite=" ++ d) = "sameSite" := by
    simp only [canonKey, hsplit]
    rfl
  have hval : ((splitOnChar '=' ("SameSite=" ++ d).data).map String.mk).get? 1 = some d := by
    rw [hsplit]
    rfl
  rw [flagStep_eq, hck, hval,
    if_neg (show ¬("sameSite" : String) = "maxAge" from by decide)]

theorem flagStep_wireMaxAge (acc : Obj) (m : Int) :
    flagStep acc ("Max-Age=" ++ intRepr m) = objSet acc "maxAge" (.num m) := by
  have hm : '=' ∉ (intRepr m).data := intRepr_no_eq m
  have hsplit : splitOnChar '=' ("Max-Age=" ++ intRepr m).data =
      ["Max-Age".data, (intRepr m).data] := by
    rw [show ("Max-Age=" ++ intRepr m).data =
        "Max-Age".data ++ '=' :: (intRepr m).data from rfl,
      splitOnChar_chain '=' _ _ (by decide), splitOnChar_no_sep '=' _ hm]
  have hck : canonKey ("Max-Age=" ++ intRepr m) = "maxAge" := by
    simp only [canonKey, hsplit]
    rfl
  have hval : ((splitOnChar '=' ("Max-Age=" ++ intRepr m).data).map String.mk).get? 1 =
      some (intRepr m) := by
    rw [hsplit]
    rfl
  rw [flagStep_eq, hck, hval, if_pos rfl]
  show objSet acc "maxAge" (jsParseInt (intRepr m)) = objSet acc "maxAge" (.num m)
  rw [jsParseInt_intRepr]

theorem flagStep_bareHttpOnly (acc : Obj) :
    flagStep acc "HttpOnly" = objSet acc "httpOnly" (.bool true) := rfl

theorem flagStep_bareSecure (acc : Obj) :
    flagStep acc "Secure" = objSet acc "secure" (.bool true) := rfl

theorem piece_props_of (a : Char) (t : List Char) (p : String)
    (hp : p.data = a :: t) (ha : isWsChar a = false) (hs : ';' ∉ a :: t) :
    p.data ≠ [] ∧ ';' ∉ p.data ∧
      (∀ c, p.data.head? = some c → isWsChar c = false) := by
  refine ⟨by rw [hp]; exact fun hc => List.noConfusion hc, by rw [hp]; exact hs, ?_⟩
  intro c hc
  rw [hp, List.head?_cons] at hc
  have hac : a = c := by injection hc
  exact hac ▸ ha

theorem segPieces_eq (dom pth exp : Option String) (mag : Option Int)
    (hto sec : Option Bool) (sam : Option String) :
    segPieces dom pth exp mag hto sec sam =
      (dom.map (fun d => "Domain=" ++ d)).toList ++
        (pth.map (fun p => "Path=" ++ p)).toList ++
        (exp.map (fun e => "Expires=" ++ e)).toList ++
        (mag.map (fun m => "Max-Age=" ++ intRepr m)).toList ++
        htoSeg hto ++ secSeg sec ++
        (sam.map (fun s => "SameSite=" ++ s)).toList := rfl

/-- Every attribute segment the serializer emits is nonempty, free of
semicolons, and starts with a non-whitespace character. -/
theorem segPieces_props (dom pth exp : Option String) (mag : Option Int)
    (hto sec : Option Bool) (sam : Option String)
    (hdom : ∀ d, dom = some d → ';' ∉ d.data)
    (hpth : ∀ d, pth = some d → ';' ∉ d.data)
    (hexp : ∀ d, exp = some d → ';' ∉ d.data)
    (hsam : ∀ d, sam = some d → ';' ∉ d.data) :
    ∀ p ∈ segPieces dom pth exp mag hto sec sam, p.data ≠ [] ∧ ';' ∉ p.data ∧
      (∀ c, p.data.head? = some c → isWsChar c = false) := by
  intro p hp
  rw [segPieces_eq] at hp
  simp only [List.mem_append] at hp
  rcases hp with ((((((h | h) | h) | h) | h) | h) | h)
  · simp at h
    obtain ⟨d, hd, hpe⟩ := h
    subst hpe
    refine piece_props_of 'D' ("omain=".data ++ d.data) _ rfl (by decide) ?_
    intro hmem
    simp only [List.mem_cons, List.mem_append] at hmem
    rcases hmem with h | h | h
    · exact absurd h (by decide)
    · exact absurd h (by decide)
    · exact hdom d hd h
  · simp at h
    obtain ⟨d, hd, hpe⟩ := h
    subst hpe
    refine piece_props_of 'P' ("ath=".data ++ d.data) _ rfl (by decide) ?_
    intro hmem
    simp only [List.mem_cons, List.mem_append] at hmem
    rcases hmem with h | h | h
    · exact absurd h (by decide)
    · exact absurd h (by decide)
    · exact hpth d hd h
  · simp at h
    obtain ⟨d, hd, hpe⟩ := h
    subst hpe
    refine piece_props_of 'E' ("xpires=".data ++ d.data) _ rfl (by decide) ?_
    intro hmem
    simp only [List.mem_cons, List.mem_append] at hmem
    rcases hmem with h | h | h
    · exact absurd h (by decide)
    · exact absurd h (by decide)
    · exact hexp d hd h
  · simp at h
    obtain ⟨m, hm, hpe⟩ := h
    subst hpe
    refine piece_props_of 'M' ("ax-Age=".data ++ (intRepr m).data) _ rfl (by decide) ?_
    intro hmem
    simp only [List.mem_cons, List.mem_append] at hmem
    rcases hmem with h | h | h
    · exact absurd h (by decide)
    · exact absurd h (by decide)
    · exact intRepr_no_semi m h
  · cases hto with
    | none => exact absurd h (by simp [htoSeg])
    | some b =>
      cases b with
      | false => exact absurd h (by simp [htoSeg])
      | true =>
        simp [htoSeg] at h
        subst h
        exact piece_props_of 'H' "ttpOnly".data _ rfl (by decide) (by decide)
  · cases sec with
    | none => exact absurd h (by simp [secSeg])
    | some b =>
      cases b with
      | false => exact absurd h (by simp [secSeg])
      | true =>
        simp [secSeg] at h
        subst h
        exact piece_props_of 'S' "ecure".data _ rfl (by decide) (by decide)
  · simp at h
    obtain ⟨d, hd, hpe⟩ := h
    subst hpe
    refine piece_props_of 'S' ("ameSite=".data ++ d.data) _ rfl (by decide) ?_
    intro hmem
    simp only [List.mem_cons, List.mem_append] at hmem
    rcases hmem with h | h | h
    · exact absurd h (by decide)
    · exact absurd h (by decide)
    · exact hsam d hd h

/-- Splitting a serialized header on the semicolon-whitespace delimiter
recovers the name-value prefix and the attribute segments. -/
theorem splitSemiWs_base_segs (pieces : List String) : ∀ (base : List Char),
    ';' ∉ base →
    (∀ p ∈ pieces, p.data ≠ [] ∧ ';' ∉ p.data ∧
      (∀ c, p.data.head? = some c → isWsChar c = false)) →
    splitSemiWs (base ++ (segsConcat pieces).data) = base :: pieces.map String.data := by
  induction pieces with
  | nil =>
    intro base hbase hpieces
    rw [show (segsConcat []).data = [] from rfl, List.append_nil, splitSemiWs,
      splitSW_no_semi base hbase, List.map_nil]
  | cons s ss ih =>
    intro base hbase hpieces
    have hs := hpieces s (by simp)
    have hdata : (segsConcat (s :: ss)).data =
        ';' :: ' ' :: (s.data ++ (segsConcat ss).data) := rfl
    have hhead : ∀ c, (s.data ++ (segsConcat ss).data).head? = some c →
        isWsChar c = false := by
      intro c hc
      cases hsd : s.data with
      | nil => exact absurd hsd hs.1
      | cons a t =>
        rw [hsd, List.cons_append, List.head?_cons] at hc
        have hac : a = c := by injection hc
        exact hac ▸ hs.2.2 a (by rw [hsd]; rfl)
    rw [hdata, splitSemiWs, splitSW_chain base (s.data ++ (segsConcat ss).data) hbase hhead]
    rw [show splitSW false (s.data ++ (segsConcat ss).data) =
        splitSemiWs (s.data ++ (segsConcat ss).data) from rfl,
      ih s.data hs.2.1 (fun p hp => hpieces p (by simp [hp])), List.map_cons]

theorem map_mk_data (l : List String) : (l.map String.data).map String.mk = l := by
  rw [List.map_map]
  have h : ∀ x ∈ l, (String.mk ∘ String.data) x = id x := fun x _ => strMk_data x
  rw [List.map_congr_left h, List.map_id]

theorem fold_optStr_chunk (acc : Obj) (wireF : String → String) (prop : String)
    (x : Option String)
    (hstep : ∀ d, x = some d → flagStep acc (wireF d) = objSet acc prop (JSVal.str d))
    (hfresh : hasKey acc prop = false) :
    ((x.map wireF).toList).foldl flagStep acc =
      acc ++ optField prop (x.map JSVal.str) := by
  cases x with
  | none => simp [optField]
  | some d =>
    rw [show ((some d).map wireF).toList = [wireF d] from rfl, List.foldl_cons,
      List.foldl_nil, hstep d rfl, objSet_fresh _ _ _ hfresh]
    rfl

theorem fold_mag_chunk (acc : Obj) (mag : Option Int)
    (hfresh : hasKey acc "maxAge" = false) :
    ((mag.map (fun m => "Max-Age=" ++ intRepr m)).toList).foldl flagStep acc =
      acc ++ optField "maxAge" (mag.map JSVal.num) := by
  cases mag with
  | none => simp [optField]
  | some m =>
    rw [show ((some m).map (fun m => "Max-Age=" ++ intRepr m)).toList =
        ["Max-Age=" ++ intRepr m] from rfl,
      List.foldl_cons, List.foldl_nil, flagStep_wireMaxAge acc m,
      objSet_fresh _ _ _ hfresh]
    rfl

theorem fold_hto_chunk (acc : Obj) (hto : Option Bool) (h : ¬hto = some false)
    (hfresh : hasKey acc "httpOnly" = false) :
    (htoSeg hto).foldl flagStep acc =
      acc ++ optField "httpOnly" (hto.map JSVal.bool) := by
  cases hto with
  | none => simp [htoSeg, optField]
  | some b =>
    cases b with
    | false => exact absurd rfl h
    | true =>
      show List.foldl flagStep acc ["HttpOnly"] =
        acc ++ optField "httpOnly" (Option.map JSVal.bool (some true))
      rw [List.foldl_cons, List.foldl_nil, flagStep_bareHttpOnly,
        objSet_fresh _ _ _ hfresh]
      rfl

theorem fold_sec_chunk (acc : Obj) (sec : Option Bool) (h : ¬sec = some false)
    (hfresh : hasKey acc "secure" = false) :
    (secSeg sec).foldl flagStep acc =
      acc ++ optField "secure" (sec.map JSVal.bool) := by
  cases sec with
  | none => simp [secSeg, optField]
  | some b =>
    cases b with
    | false => exact absurd rfl h
    | true =>
      show List.foldl flagStep acc ["Secure"] =
        acc ++ optField "secure" (Option.map JSVal.bool (some true))
      rw [List.foldl_cons, List.foldl_nil, flagStep_bareSecure,
        objSet_fresh _ _ _ hfresh]
      rfl

/-- Folding the serialized attribute segments over the initial name-value
object rebuilds the canonical cookie object. -/
theorem fold_segPieces (n v : String) (dom pth exp : Option String) (mag : Option Int)
    (hto sec : Option Bool) (sam : Option String)
    (hdom : ∀ d, dom = some d → '=' ∉ d.data)
    (hpth : ∀ d, pth = some d → '=' ∉ d.data)
    (hexp : ∀ d, exp = some d → '=' ∉ d.data)
    (hsam : ∀ d, sam = some d → '=' ∉ d.data)
    (hhto : ¬hto = some false) (hsec : ¬sec = some false) :
    (segPieces dom pth exp mag hto sec sam).foldl flagStep
        [("name", JSVal.str n), ("value", JSVal.str v)] =
      mkCookieObject n v dom pth exp mag hto sec sam := by
  rw [segPieces_eq]
  simp only [List.foldl_append]
  rw [fold_optStr_chunk [("name", JSVal.str n), ("value", JSVal.str v)] _ "domain" dom
    (fun d hd => flagStep_wireDomain _ d (hdom d hd)) rfl]
  rw [fold_optStr_chunk
    ([("name", JSVal.str n), ("value", JSVal.str v)] ++
      optField "domain" (Option.map JSVal.str dom)) _ "path" pth
    (fun d hd => flagStep_wirePath _ d (hpth d hd))
    (hasKey_append_ff _ _ _ rfl (hasKey_optField_false _ _ _ (by decide)))]
  rw [fold_optStr_chunk
    (([("name", JSVal.str n), ("value", JSVal.str v)] ++
      optField "domain" (Option.map JSVal.str dom)) ++
      optField "path" (Option.map JSVal.str pth)) _ "expires" exp
    (fun d hd => flagStep_wireExpires _ d (hexp d hd))
    (hasKey_append_ff _ _ _
      (hasKey_append_ff _ _ _ rfl (hasKey_optField_false _ _ _ (by decide)))
      (hasKey_optField_false _ _ _ (by decide)))]
  rw [fold_mag_chunk
    ((([("name", JSVal.str n), ("value", JSVal.str v)] ++
      optField "domain" (Option.map JSVal.str dom)) ++
      optField "path" (Option.map JSVal.str pth)) ++
      optField "expires" (Option.map JSVal.str exp)) mag
    (hasKey_append_ff _ _ _
      (hasKey_append_ff _ _ _
        (hasKey_append_ff _ _ _ rfl (hasKey_optField_false _ _ _ (by decide)))
        (hasKey_optField_false _ _ _ (by decide)))
      (hasKey_optField_false _ _ _ (by decide)))]
  rw [fold_hto_chunk
    (((([("name", JSVal.str n), ("value", JSVal.str v)] ++
      optField "domain" (Option.map JSVal.str dom)) ++
      optField "path" (Option.map JSVal.str pth)) ++
      optField "expires" (Option.map JSVal.str exp)) ++
      optField "maxAge" (Option.map JSVal.num mag)) hto hhto
    (hasKey_append_ff _ _ _
      (hasKey_append_ff _ _ _
        (hasKey_append_ff _ _ _
          (hasKey_append_ff _ _ _ rfl (hasKey_optField_false _ _ _ (by decide)))
          (hasKey_optField_false _ _ _ (by decide)))
        (hasKey_optField_false _ _ _ (by decide)))
      (hasKey_optField_false _ _ _ (by decide)))]
  rw [fold_sec_chunk
    ((((([("name", JSVal.str n), ("value", JSVal.str v)] ++
      optField "domain" (Option.map JSVal.str dom)) ++
      optField "path" (Option.map JSVal.str pth)) ++
      optField "expires" (Option.map JSVal.str exp)) ++
      optField "maxAge" (Option.map JSVal.num mag)) ++
      optField "httpOnly" (Option.map JSVal.bool hto)) sec hsec
    (hasKey_append_ff _ _ _
      (hasKey_append_ff _ _ _
        (hasKey_append_ff _ _ _
          (hasKey_append_ff _ _ _
            (hasKey_append_ff _ _ _ rfl (hasKey_optField_false _ _ _ (by decide)))
            (hasKey_optField_false _ _ _ (by decide)))
          (hasKey_optField_false _ _ _ (by decide)))
        (hasKey_optField_false _ _ _ (by decide)))
      (hasKey_optField_false _ _ _ (by decide)))]
  rw [fold_optStr_chunk
    (((((([("name", JSVal.str n), ("value", JSVal.str v)] ++
      optField "domain" (Option.map JSVal.str dom)) ++
      optField "path" (Option.map JSVal.str pth)) ++
      optField "expires" (Option.map JSVal.str exp)) ++
      optField "maxAge" (Option.map JSVal.num mag)) ++
      optField "httpOnly" (Option.map JSVal.bool hto)) ++
      optField "secure" (Option.map JSVal.bool sec)) _ "sameSite" sam
    (fun d hd => flagStep_wireSameSite _ d (hsam d hd))
    (hasKey_append_ff _ _ _
      (hasKey_append_ff _ _ _
        (hasKey_append_ff _ _ _
          (hasKey_append_ff _ _ _
            (hasKey_append_ff _ _ _
              (hasKey_append_ff _ _ _ rfl (hasKey_optField_false _ _ _ (by decide)))
              (hasKey_optField_false _ _ _ (by decide)))
            (hasKey_optField_false _ _ _ (by decide)))
          (hasKey_optField_false _ _ _ (by decide)))
        (hasKey_optField_false _ _ _ (by decide)))
      (hasKey_optField_false _ _ _ (by decide)))]
  rfl

/-- Parsing the serialized header of a canonical cookie object recovers
the object. -/
theorem parseSetCookieString_segs (n v : String) (dom pth exp : Option String)
    (mag : Option Int) (hto sec : Option Bool) (sam : Option String)
    (hn : cleanStr n) (hv : cleanStr v)
    (hdom : ∀ d, dom = some d → cleanStr d) (hpth : ∀ d, pth = some d → cleanStr d)
    (hexp : ∀ d, exp = some d → cleanStr d) (hsam : ∀ d, sam = some d → cleanStr d)
    (hhto : ¬hto = some false) (hsec : ¬sec = some false) :
    parseSetCookieString
        ((n ++ "=" ++ v) ++ segsConcat (segPieces dom pth exp mag hto sec sam)) =
      mkCookieObject n v dom pth exp mag hto sec sam := by
  have hbase : ';' ∉ n.data ++ '=' :: v.data := by
    intro hmem
    rcases List.mem_append.mp hmem with h | h
    · exact hn.1 h
    · rcases List.mem_cons.mp h with h | h
      · exact absurd h (by decide)
      · exact hv.1 h
  have hprops := segPieces_props dom pth exp mag hto sec sam
    (fun d hd => (hdom d hd).1) (fun d hd => (hpth d hd).1)
    (fun d hd => (hexp d hd).1) (fun d hd => (hsam d hd).1)
  have hdata2 : (n ++ "=" ++ v).data = n.data ++ '=' :: v.data := by
    rw [strPairSegment]
  have hsplit : splitSemiWs
      (((n ++ "=" ++ v) ++ segsConcat (segPieces dom pth exp mag hto sec sam)).data) =
      (n.data ++ '=' :: v.data) ::
        (segPieces dom pth exp mag hto sec sam).map String.data := by
    rw [show ((n ++ "=" ++ v) ++
        segsConcat (segPieces dom pth exp mag hto sec sam)).data =
        (n ++ "=" ++ v).data ++
          (segsConcat (segPieces dom pth exp mag hto sec sam)).data from rfl, hdata2]
    exact splitSemiWs_base_segs _ _ hbase hprops
  have hparts : ((splitSemiWs
      (((n ++ "=" ++ v) ++
        segsConcat (segPieces dom pth exp mag hto sec sam)).data)).map String.mk) =
      (n ++ "=" ++ v) :: segPieces dom pth exp mag hto sec sam := by
    rw [hsplit, List.map_cons, map_mk_data, ← strPairSegment]
  have hnv : (splitOnChar '=' (n ++ "=" ++ v).data).map String.mk = [n, v] := by
    have hdata : (n ++ "=" ++ v).data = n.data ++ '=' :: v.data := by
      rw [strPairSegment]
    rw [hdata, splitOnChar_chain '=' _ _ hn.2, splitOnChar_no_sep '=' _ hv.2,
      List.map_cons, List.map_cons, List.map_nil, strMk_data, strMk_data]
  simp only [parseSetCookieString]
  rw [hparts, List.headD_cons, List.tail_cons, hnv]
  exact fold_segPieces n v dom pth exp mag hto sec sam
    (fun d hd => (hdom d hd).2) (fun d hd => (hpth d hd).2)
    (fun d hd => (hexp d hd).2) (fun d hd => (hsam d hd).2) hhto hsec

/-! ## Claim C3 -/

/-- C3 counterexample: the object with the recognized attribute secure set
to false does not survive the round trip: the serializer drops the falsy
flag, so parsing the produced header returns the object without the secure
field, which is not the original object even up to the type normalization
of maxAge and expires. -/
theorem object_setCookie_roundtrip_fails :
    setCookieHeadersToCookieObjects
        ((cookieObjectsToSetCookieHeaders
          [.obj [("name", .str "a"), ("value", .str "b"), ("secure", .bool false)]]
          []).map .str) [] =
      .ok [[("name", JSVal.str "a"), ("value", JSVal.str "b")]] ∧
    ¬([[("name", JSVal.str "a"), ("value", JSVal.str "b")]] =
      ([[("name", JSVal.str "a"), ("value", JSVal.str "b"),
        ("secure", JSVal.bool false)]] : List Obj)) :=
  ⟨rfl, by simp⟩

/-- C3 (amended): for a cookie object whose optional fields come only from
the recognized attribute set, whose name, value and string attribute
values are free of the semicolon and equals delimiters, whose domain, path
and sameSite values are nonempty, and whose boolean flags are not false,
converting the singleton array to Set-Cookie headers and back returns
exactly the singleton of the object, with maxAge numeric and expires a
formatted date string on both sides. -/
theorem object_setCookie_roundtrip (n v : String) (dom pth exp : Option String)
    (mag : Option Int) (hto sec : Option Bool) (sam : Option String)
    (hn : cleanStr n) (hv : cleanStr v)
    (hdom : ∀ d, dom = some d → cleanStr d ∧ ¬d = "")
    (hpth : ∀ d, pth = some d → cleanStr d ∧ ¬d = "")
    (hexp : ∀ d, exp = some d → cleanStr d)
    (hsam : ∀ d, sam = some d → cleanStr d ∧ ¬d = "")
    (hhto : ¬hto = some false) (hsec : ¬sec = some false) :
    setCookieHeadersToCookieObjects
        ((cookieObjectsToSetCookieHeaders
          [.obj (mkCookieObject n v dom pth exp mag hto sec sam)] []).map .str) [] =
      .ok [mkCookieObject n v dom pth exp mag hto sec sam] := by
  rw [serialize_mkCookieObject n v dom pth exp mag hto sec sam
    (fun hc => (hdom "" hc).2 rfl) (fun hc => (hpth "" hc).2 rfl)
    (fun hc => (hsam "" hc).2 rfl)]
  rw [setCookieHeadersToCookieObjects_strings
    [(n ++ "=" ++ v) ++ segsConcat (segPieces dom pth exp mag hto sec sam)] []]
  simp only [List.map_cons, List.map_nil]
  rw [recordMerge_nil, parseSetCookieString_segs n v dom pth exp mag hto sec sam hn hv
    (fun d hd => (hdom d hd).1) (fun d hd => (hpth d hd).1) hexp
    (fun d hd => (hsam d hd).1) hhto hsec]

/-- C3 witness: the round trip at a concrete cookie object carrying all
seven recognized attributes. -/
theorem object_setCookie_roundtrip_witness :
    setCookieHeadersToCookieObjects
        ((cookieObjectsToSetCookieHeaders
          [.obj (mkCookieObject "session" "abc123" (some "example.com") (some "/api")
            (some "Wed, 21 Oct 2025 07:28:00 GMT") (some 3600) (some true) (some true)
            (some "Strict"))] []).map .str) [] =
      .ok [mkCookieObject "session" "abc123" (some "example.com") (some "/api")
        (some "Wed, 21 Oct 2025 07:28:00 GMT") (some 3600) (some true) (some true)
        (some "Strict")] :=
  object_setCookie_roundtrip "session" "abc123" (some "example.com") (some "/api")
    (some "Wed, 21 Oct 2025 07:28:00 GMT") (some 3600) (some true) (some true)
    (some "Strict") (by decide) (by decide)
    (by intro d hd; injection hd with h; subst h; exact ⟨by decide, by decide⟩)
    (by intro d hd; injection hd with h; subst h; exact ⟨by decide, by decide⟩)
    (by intro d hd; injection hd with h; subst h; decide)
    (by intro d hd; injection hd with h; subst h; exact ⟨by decide, by decide⟩)
    (by decide) (by decide)

end CookieMore
